import Mathlib

/-!
# OpenVAS scanner, `src/comm.c`: the OTP communication manager

A shallow embedding of the functions of `comm.c` and of the C library routines
they call, followed by theorems about them.

Conventions of the embedding.

* A C string is the list of its bytes before the terminating NUL (`CStr`); a
  `char *` that may be `NULL` is an `Option CStr`.
* Text written to the socket (`nsend`, `send_printf`) is returned as the list of
  bytes written, in order.
* Undefined behaviour of the C program (reading through a `NULL` pointer,
  indexing outside an array) is an explicit `Fault`.
* `int` values are integers, with the conversions between C types written out
  where a value can leave its range (`atoi`, the category index); array indices
  and counts, which the code keeps non-negative, are natural numbers.
-/

namespace Comm

/-! ## C strings and the C library -/

/-- A C string: its bytes, without the terminating NUL. -/
abbrev CStr := List Nat

/-- The bytes of an ASCII literal. -/
def cstr (s : String) : CStr := s.toList.map Char.toNat

/-- Ways in which the C program leaves defined behaviour (or the model its fuel). -/
inductive Fault where
  | out_of_bounds
  | null_deref
  | out_of_fuel
  deriving DecidableEq, Repr

deriving instance DecidableEq for Except

/-- The libc `strcmp`: negative, zero or positive as the first string is below,
equal to or above the second one in byte order. -/
def strcmp : CStr → CStr → Int
  | [], [] => 0
  | [], _ :: _ => -1
  | _ :: _, [] => 1
  | a :: as, b :: bs => if a = b then strcmp as bs else if a < b then -1 else 1

/-- The libc `strncmp`: `strcmp` on at most the first `n` bytes of each string. -/
def strncmp (a b : CStr) (n : Nat) : Int := strcmp (a.take n) (b.take n)

/-- The libc `strchr`: offset of the first occurrence of byte `c`, `none` for `NULL`. -/
def strchr : CStr → Nat → Option Nat
  | [], _ => none
  | b :: bs, c => if b = c then some 0 else (strchr bs c).map (· + 1)

/-- The libc `strstr`: offset of the first occurrence of `needle`, `none` for `NULL`. -/
def strstr : CStr → CStr → Option Nat
  | [], needle => if needle = [] then some 0 else none
  | b :: bs, needle =>
    if needle <+: b :: bs then some 0 else (strstr bs needle).map (· + 1)

/-- The libc `isspace` in the C locale. -/
def isspace (c : Nat) : Bool := c = 32 || (9 ≤ c && c ≤ 13)

/-- The glib `g_ascii_isdigit`: the bytes `'0'` to `'9'`. -/
def g_ascii_isdigit (c : Nat) : Bool := 48 ≤ c && c ≤ 57

/-- The digit loop of `strtol`: accumulates leading decimal digits. -/
def atoi_digits : CStr → Int → Int
  | [], acc => acc
  | c :: cs, acc => if g_ascii_isdigit c then atoi_digits cs (acc * 10 + (c - 48)) else acc

/-- The integer that the start of a string denotes in base 10, as `strtol` reads
it: skip white space, read an optional sign, then decimal digits (0 without a
digit). -/
def strtol_value : CStr → Int
  | [] => 0
  | c :: cs =>
    if isspace c then strtol_value cs
    else if c = 45 then - atoi_digits cs 0
    else if c = 43 then atoi_digits cs 0
    else atoi_digits (c :: cs) 0

/-- The libc `strtol (s, NULL, 10)` with a 64-bit `long`: the integer read, held to
the range `LONG_MIN` to `LONG_MAX`. -/
def strtol (s : CStr) : Int :=
  max (-9223372036854775808) (min 9223372036854775807 (strtol_value s))

/-- Conversion of a `long` to `int` (32 bits, two's complement). -/
def to_int (v : Int) : Int := (v + 2147483648) % 4294967296 - 2147483648

/-- The libc `atoi`, which is `(int) strtol (s, NULL, 10)`. -/
def atoi (s : CStr) : Int := to_int (strtol s)

/-- The tokens that `strtok (s, delim)` followed by `strtok (NULL, delim)` until
`NULL` returns, for a one-byte delimiter set: the maximal non-empty runs of
bytes other than `delim`. `cur` is the token being scanned. -/
def strtok_scan (delim : Nat) : CStr → CStr → List CStr
  | [], cur => if cur = [] then [] else [cur]
  | c :: cs, cur =>
    if c = delim then
      if cur = [] then strtok_scan delim cs [] else cur :: strtok_scan delim cs []
    else strtok_scan delim cs (cur ++ [c])

/-- All tokens of `s` in the order `strtok` yields them. -/
def strtok_all (s : CStr) (delim : Nat) : List CStr := strtok_scan delim s []

/-- The libc `qsort` with comparison function `cmp`: a sort into ascending order. -/
def qsort {α : Type} (array : List α) (cmp : α → α → Int) : List α :=
  array.insertionSort (fun a b => cmp a b ≤ 0)

/-! ## Data -/

/-- Launch state `LAUNCH_DISABLED` of `pluginscheduler.h` (the code relies on it
being `0`: `enable != 0`). -/
def LAUNCH_DISABLED : Int := 0

/-- Launch state `LAUNCH_RUN` of `pluginscheduler.h`. -/
def LAUNCH_RUN : Int := 1

/-- A node of the plugin list `global_plugins`: `name` is the OID of the plugin,
`launch` the launch state kept in the plugin arguments `value` and written by
`plug_set_launch`. A list of nodes stands for the C list closed by its empty
end node. -/
structure arglist where
  name : CStr
  launch : Int
  deriving DecidableEq, Repr

/-- The call `plug_set_launch (p->value, launch)`. -/
def plug_set_launch (p : arglist) (launch : Int) : arglist := { p with launch := launch }

/-- An entry of the NVT metadata cache (`nvti_t`) with the accessors `comm.c` reads. -/
structure nvti where
  oid : CStr
  name : Option CStr
  category : Int
  copyright : Option CStr
  summary : Option CStr
  family : Option CStr
  version : Option CStr
  cve : Option CStr
  bid : Option CStr
  xref : Option CStr
  tag : Option CStr
  deriving DecidableEq, Repr

/-! ## `comm_init` -/

/-- The function `comm_init`. `n` and `buf` are the count returned by `recv_line`
and the buffer content it leaves; the result is the return value and the bytes
sent. -/
def comm_init (n : Int) (buf : CStr) : Int × CStr :=
  if n ≤ 0 then (-1, [])
  else
    let buf := buf.take 1023
    if strncmp buf (cstr "< OTP/2.0 >") 11 ≠ 0 then (-1, [])
    else (0, cstr "< OTP/2.0 >\n")

/-! ## `send_plug_info` -/

/-- Conversion of an `int` to `size_t` (64 bits) in the comparison `j >= CAT_MAX`. -/
def to_size_t (j : Int) : Int := j % 2 ^ 64

/-- The adjustment of the category in `send_plug_info`:
`if (j >= CAT_MAX || j < ACT_FIRST) j = CAT_MAX - 1;`. -/
def cat_index (CAT_MAX ACT_FIRST j : Int) : Int :=
  if to_size_t j ≥ CAT_MAX ∨ j < ACT_FIRST then CAT_MAX - 1 else j

/-- The tag rewriting loop of `send_plug_info`: every `'\n'` becomes `';'`. -/
def tag_rewrite (tag : CStr) : CStr := tag.map (fun c => if c = 10 then 59 else c)

/-- A `%s` argument that defaults to `dflt` when `NULL` or empty. -/
def or_default (s : Option CStr) (dflt : CStr) : CStr :=
  match s with
  | none => dflt
  | some v => if strcmp v [] = 0 then dflt else v

/-- The function `send_plug_info`. `categories` is the table `ACT_STRING_LIST_ALL`
and `ACT_FIRST` the first category of `nvt_categories.h`; the result is the text
sent on the socket, or a fault. -/
def send_plug_info (categories : List CStr) (ACT_FIRST : Int)
    (nvticache_get_by_oid_full : CStr → Option nvti) (plugins : arglist) :
    Except Fault CStr :=
  match nvticache_get_by_oid_full plugins.name with
  | none => .ok []
  | some nvti =>
    let CAT_MAX : Int := categories.length
    let j := nvti.category
    let j := cat_index CAT_MAX ACT_FIRST j
    let version := nvti.version.getD (cstr "?")
    let name := nvti.name
    let ignored := name.isNone
    let copyright := nvti.copyright
    let ignored := ignored || copyright.isNone
    let summary :=
      match nvti.tag with
      | some tag => if (strstr tag (cstr "summary=")).isSome then some (cstr "NOSUMMARY")
                    else nvti.summary
      | none => nvti.summary
    let ignored := ignored || summary.isNone
    let family := nvti.family
    let ignored := ignored || family.isNone
    -- strchr (name, '\n'), strchr (copyright, '\n'), strchr (summary, '\n')
    match name, copyright, summary with
    | some name, some copyright, some summary =>
      let ignored := ignored || (strchr name 10).isSome
      let ignored := ignored || (strchr copyright 10).isSome
      let ignored := ignored || (strchr summary 10).isSome
      if !ignored then
        let cve_id := or_default nvti.cve (cstr "NOCVE")
        let bid := or_default nvti.bid (cstr "NOBID")
        let xref := or_default nvti.xref (cstr "NOXREF")
        let tag :=
          match nvti.tag with
          | none => cstr "NOTAG"
          | some tag => if strcmp tag [] = 0 then cstr "NOTAG" else tag_rewrite tag
        if j < 0 then .error .out_of_bounds
        else
          match categories[j.toNat]? with
          | none => .error .out_of_bounds
          | some category =>
            let sep := cstr " <|> "
            let str := nvti.oid ++ sep ++ name ++ sep ++ category ++ sep
              ++ copyright ++ sep ++ summary ++ sep ++ family.getD (cstr "(null)") ++ sep
              ++ version ++ sep ++ cve_id ++ sep ++ bid ++ sep ++ xref ++ sep ++ tag
            .ok (str ++ cstr "\n")
      else .ok []
    | _, _, _ => .error .null_deref

/-! ## Plugin lookup and `comm_setup_plugins` -/

/-- The function `_get_plug_by_oid`. The elements of `array` are pointers and
`name p` reads `p->name`; `fuel` bounds the recursion depth. -/
def _get_plug_by_oid {α : Type} (name : α → CStr) (array : List α) (oid : CStr) :
    Nat → Nat → Nat → Nat → Except Fault (Option α)
  | 0, _, _, _ => .error .out_of_fuel
  | fuel + 1, start, end_, rend =>
    if start ≥ rend then .ok none
    else if start = end_ then
      match array[start]? with
      | none => .error .out_of_bounds
      | some p => if strcmp (name p) oid = 0 then .ok (some p) else .ok none
    else
      let mid := (start + end_) / 2
      match array[mid]? with
      | none => .error .out_of_bounds
      | some p =>
        if strcmp (name p) oid > 0 then _get_plug_by_oid name array oid fuel start mid rend
        else if strcmp (name p) oid < 0 then
          _get_plug_by_oid name array oid fuel (mid + 1) end_ rend
        else .ok (some p)

/-- The function `get_plug_by_oid`; the recursion gets `num_plugins + 1` steps. -/
def get_plug_by_oid {α : Type} (name : α → CStr) (array : List α) (oid : CStr)
    (num_plugins : Nat) : Except Fault (Option α) :=
  _get_plug_by_oid name array oid (num_plugins + 1) 0 num_plugins num_plugins

/-- The function `qsort_cmp`, on two pointers whose `name` fields are read by `name`. -/
def qsort_cmp {α : Type} (name : α → CStr) (a b : α) : Int := strcmp (name a) (name b)

/-- The field `p->name` of the node at position `p` of the plugin list. -/
def node_name (plugins : List arglist) (p : Nat) : CStr :=
  match plugins[p]? with
  | some a => a.name
  | none => []

/-- The call `plug_set_launch (p->value, launch)` for the node at position `p`. -/
def plug_set_launch_at (plugins : List arglist) (p : Nat) (launch : Int) : List arglist :=
  match plugins[p]? with
  | some a => plugins.set p (plug_set_launch a launch)
  | none => plugins

/-- The last loop of `comm_setup_plugins`, over the tokens of the list: a token
found in the sorted array sets the launch state of its plugin to `LAUNCH_RUN`. -/
def enable_selected (array : List Nat) (num_plugins : Nat) :
    List CStr → List arglist → Except Fault (List arglist)
  | [], plugins => .ok plugins
  | oid :: rest, plugins =>
    match get_plug_by_oid (node_name plugins) array oid num_plugins with
    | .error e => .error e
    | .ok none => enable_selected array num_plugins rest plugins
    | .ok (some p) =>
      enable_selected array num_plugins rest (plug_set_launch_at plugins p LAUNCH_RUN)

/-- The function `comm_setup_plugins`. `global_plugins` is `none` for a `NULL`
list; a pointer to a node is its position in the list. The result is the plugin
list with its new launch states. -/
def comm_setup_plugins (list : Option CStr) (global_plugins : Option (List arglist)) :
    Except Fault (Option (List arglist)) :=
  match global_plugins with
  | none => .ok none
  | some plugins =>
    let list := list.getD (cstr "-1;")
    let enable := if atoi list = -1 then LAUNCH_RUN else LAUNCH_DISABLED
    let num_plugins := plugins.length
    let plugins := plugins.map (fun p => plug_set_launch p enable)
    if num_plugins = 0 ∨ enable ≠ 0 then .ok (some plugins)
    else
      let array := qsort (List.range num_plugins) (qsort_cmp (node_name plugins))
      match enable_selected array num_plugins (strtok_all list 59) plugins with
      | .error e => .error e
      | .ok plugins => .ok (some plugins)

/-! ## Feed version -/

/-- The loop of `is_valid_feed_version`. -/
def is_valid_feed_version_loop : CStr → Int
  | [] => 1
  | c :: cs => if !g_ascii_isdigit c then 0 else is_valid_feed_version_loop cs

/-- The function `is_valid_feed_version`; `none` is a `NULL` buffer. -/
def is_valid_feed_version (feed_version : Option CStr) : Int :=
  match feed_version with
  | none => 0
  | some s => is_valid_feed_version_loop s


/-! ## `plugin_send_infos` and `comm_send_pluginlist` -/

/-- The loop of `plugin_send_infos` over the nodes of the plugin list: the first
node named `oid` is handed to `send_plug_info`. The end node of the C list has
no `value` and is passed over, which is the case `[]`. -/
def plugin_send_infos_loop (categories : List CStr) (ACT_FIRST : Int)
    (nvticache_get_by_oid_full : CStr → Option nvti) (oid : CStr) :
    List arglist → Except Fault CStr
  | [] => .ok []
  | plugins :: next =>
    if strcmp oid plugins.name = 0 then
      send_plug_info categories ACT_FIRST nvticache_get_by_oid_full plugins
    else plugin_send_infos_loop categories ACT_FIRST nvticache_get_by_oid_full oid next

/-- The function `plugin_send_infos`; the result is the text sent. -/
def plugin_send_infos (categories : List CStr) (ACT_FIRST : Int)
    (nvticache_get_by_oid_full : CStr → Option nvti)
    (global_plugins : Option (List arglist)) (oid : Option CStr) : Except Fault CStr :=
  match oid with
  | none => .ok []
  | some oid =>
    match global_plugins with
    | none => .ok []
    | some plugins =>
      plugin_send_infos_loop categories ACT_FIRST nvticache_get_by_oid_full oid plugins

/-- The loop of `comm_send_pluginlist`; `sent` is the text sent so far. -/
def comm_send_pluginlist_loop (categories : List CStr) (ACT_FIRST : Int)
    (nvticache_get_by_oid_full : CStr → Option nvti) :
    List arglist → CStr → Except Fault CStr
  | [], sent => .ok sent
  | plugins :: next, sent =>
    match send_plug_info categories ACT_FIRST nvticache_get_by_oid_full plugins with
    | .error e => .error e
    | .ok out =>
      comm_send_pluginlist_loop categories ACT_FIRST nvticache_get_by_oid_full next
        (sent ++ out)

/-- The function `comm_send_pluginlist`; the result is the text sent. -/
def comm_send_pluginlist (categories : List CStr) (ACT_FIRST : Int)
    (nvticache_get_by_oid_full : CStr → Option nvti)
    (global_plugins : Option (List arglist)) : Except Fault CStr :=
  let sent := cstr "SERVER <|> PLUGIN_LIST <|>\n"
  match comm_send_pluginlist_loop categories ACT_FIRST nvticache_get_by_oid_full
      (global_plugins.getD []) sent with
  | .error e => .error e
  | .ok sent => .ok (sent ++ cstr "<|> SERVER\n")

/-! ## `comm_send_preferences` -/

/-- A node of the preference list returned by `preferences_get`: its name, its
type tag and, for a string entry, its value. -/
structure pref_node where
  name : CStr
  type : Int
  value : CStr
  deriving DecidableEq, Repr

/-- The loop of `comm_send_preferences`; `ARG_STRING` is the type tag of string
entries and `is_scanner_only_pref` the predicate of `utils.c`; `sent` is the
text sent so far. -/
def comm_send_preferences_loop (ARG_STRING : Int) (is_scanner_only_pref : CStr → Int) :
    List pref_node → CStr → CStr
  | [], sent => sent
  | prefs :: next, sent =>
    if prefs.type = ARG_STRING ∧ is_scanner_only_pref prefs.name = 0 then
      comm_send_preferences_loop ARG_STRING is_scanner_only_pref next
        (sent ++ (prefs.name ++ cstr " <|> " ++ prefs.value ++ cstr "\n"))
    else comm_send_preferences_loop ARG_STRING is_scanner_only_pref next sent

/-- The function `comm_send_preferences`; `prefs` is the list `preferences_get`
returns (`none` for `NULL`) and the result is the text sent. -/
def comm_send_preferences (ARG_STRING : Int) (is_scanner_only_pref : CStr → Int)
    (prefs : Option (List pref_node)) : CStr :=
  let sent := cstr "SERVER <|> PREFERENCES <|>\n"
  let sent := comm_send_preferences_loop ARG_STRING is_scanner_only_pref
    (prefs.getD []) sent
  sent ++ cstr "<|> SERVER\n"

/-! ## `comm_wait_order` -/

/-- What one turn of the loop of `comm_wait_order` meets: the count `n` returned
by `recv_line`, the line `str` it leaves, the answer `present` that
`is_client_present` gives when asked, and the result `parsed` that
`ntp_parse_input` gives for the line. -/
structure wait_event where
  n : Int
  str : CStr
  present : Int
  parsed : Int
  deriving DecidableEq, Repr

/-- The function `comm_wait_order` on a script of turns. The result is the
return value (`none` when the script ends with the loop still reading) and the
lines handed to `ntp_parse_input`, in order. -/
def comm_wait_order : List wait_event → Option Int × List CStr
  | [] => (none, [])
  | e :: rest =>
    if e.n < 0 then (some (-1), [])
    else if e.str = [] ∧ e.present = 0 then (some (-1), [])
    else if e.parsed = 0 then (some 0, [e.str])
    else if e.parsed = -1 then (some (-1), [e.str])
    else ((comm_wait_order rest).1, e.str :: (comm_wait_order rest).2)

/-! ## `nvt_feed_version` and `comm_send_nvt_info` -/

/-- The libc `fgets` on the text a stream still holds: `none` at end of file,
otherwise the bytes up to and with the first `'\n'`, at most `size - 1` of them. -/
def fgets (size : Nat) (stream : CStr) : Option CStr :=
  if stream = [] then none
  else
    match strchr stream 10 with
    | none => some (stream.take (size - 1))
    | some k => some ((stream.take (k + 1)).take (size - 1))

/-- The function `nvt_feed_version`. `output` is what the `grep | sed` command
writes; the result is the return value and the content of `feed_version`. -/
def nvt_feed_version (output : CStr) (feed_version : CStr) (feed_size : Nat) :
    Int × CStr :=
  match fgets feed_size output with
  | none => (1, feed_version)
  | some line => (0, line.dropLast)

/-- What the body of the loop of `comm_send_nvt_info` does with a line. -/
inductive nvt_info_action where
  | send_pluginlist
  | send_infos (s : CStr)
  | next
  | leave
  deriving DecidableEq, Repr

/-- The body of the loop of `comm_send_nvt_info` on the line `buf`: the call it
makes, `next` for `continue`, `leave` for `break`. -/
def nvt_info_step (buf : CStr) : nvt_info_action :=
  if (strstr buf (cstr "COMPLETE_LIST")).isSome then .send_pluginlist
  else if (strstr buf (cstr "PLUGIN_INFO")).isSome then
    match strstr buf (cstr " <|> ") with
    | none => .next
    | some t =>
      match strstr (buf.drop (t + 5)) (cstr " <|> ") with
      | none => .next
      | some t2 =>
        let s := (buf.drop (t + 5)).drop (t2 + 5)
        match strchr s 32 with
        | none => .next
        | some t3 => .send_infos (s.take t3)
  else .leave

/-- The loop of `comm_send_nvt_info` on the lines that the calls of `recv_line`
leave in `buf`; after the last of them the reads fail and `buf` stays empty.
`sent` is the text sent so far. -/
def comm_send_nvt_info_loop (categories : List CStr) (ACT_FIRST : Int)
    (nvticache_get_by_oid_full : CStr → Option nvti)
    (global_plugins : Option (List arglist)) : List CStr → CStr → Except Fault CStr
  | [], sent => .ok sent
  | buf :: rest, sent =>
    match nvt_info_step buf with
    | .leave => .ok sent
    | .next =>
      comm_send_nvt_info_loop categories ACT_FIRST nvticache_get_by_oid_full
        global_plugins rest sent
    | .send_pluginlist =>
      match comm_send_pluginlist categories ACT_FIRST nvticache_get_by_oid_full
          global_plugins with
      | .error e => .error e
      | .ok out =>
        comm_send_nvt_info_loop categories ACT_FIRST nvticache_get_by_oid_full
          global_plugins rest (sent ++ out)
    | .send_infos s =>
      match plugin_send_infos categories ACT_FIRST nvticache_get_by_oid_full
          global_plugins (some s) with
      | .error e => .error e
      | .ok out =>
        comm_send_nvt_info_loop categories ACT_FIRST nvticache_get_by_oid_full
          global_plugins rest (sent ++ out)

/-- The announce line of `comm_send_nvt_info` for the buffer `feed_version`. -/
def nvt_info_announce (feed_version : CStr) : CStr :=
  cstr "SERVER <|> NVT_INFO <|> "
    ++ (if is_valid_feed_version (some feed_version) ≠ 0 then feed_version
        else cstr "NOVERSION")
    ++ cstr " <|> SERVER\n"

/-- The function `comm_send_nvt_info`. `output` is what the feed version command
writes, `lines` the lines received afterwards; the result is the text sent. -/
def comm_send_nvt_info (categories : List CStr) (ACT_FIRST : Int)
    (nvticache_get_by_oid_full : CStr → Option nvti)
    (global_plugins : Option (List arglist)) (output : CStr) (lines : List CStr) :
    Except Fault CStr :=
  let feed_size := 32
  let feed_version : CStr := []
  let feed_version := (nvt_feed_version output feed_version feed_size).2
  comm_send_nvt_info_loop categories ACT_FIRST nvticache_get_by_oid_full global_plugins
    lines (nvt_info_announce feed_version)

/-! ## Definitions used to state the properties -/

/-- What the sorted pointer array of `comm_setup_plugins` satisfies: strictly
ascending names, and exactly the positions of the list. -/
structure SortedView (plugins : List arglist) (array : List Nat) : Prop where
  strict : array.Pairwise
    (fun a b => strcmp (node_name plugins a) (node_name plugins b) < 0)
  mem : ∀ p, p ∈ array ↔ p < plugins.length
  len : array.length = plugins.length

/-- The string `oid` is a non-empty piece of `list` cut at every byte `delim`. -/
def is_token (delim : Nat) (list oid : CStr) : Prop :=
  oid ≠ [] ∧ oid ∈ list.splitOn delim

instance (delim : Nat) (list oid : CStr) : Decidable (is_token delim list oid) := by
  unfold is_token; infer_instance

/-- A linear scan of `array` for the first record named `oid`. -/
def linear_scan {α : Type} (name : α → CStr) (array : List α) (oid : CStr) : Option α :=
  array.find? (fun p => name p == oid)

/-- A value that fits the C type `int` (32 bits). -/
def is_int (j : Int) : Prop := -2 ^ 31 ≤ j ∧ j < 2 ^ 31

/-- A category table as C can declare it: at least one entry, an `int` count. -/
def is_table (categories : List CStr) : Prop :=
  categories ≠ [] ∧ (categories.length : Int) < 2 ^ 31

/-- The table entry `categories[j]` that `send_plug_info` prints for category `j`. -/
def category_string (categories : List CStr) (ACT_FIRST j : Int) : CStr :=
  categories.getD (cat_index categories.length ACT_FIRST j).toNat []

/-- The summary that is printed: the placeholder `NOSUMMARY` when the tag
contains `summary=`, the summary of the record otherwise. -/
def effective_summary (r : nvti) : Option CStr :=
  match r.tag with
  | none => r.summary
  | some tag => if cstr "summary=" <:+: tag then some (cstr "NOSUMMARY") else r.summary

/-- A field with a placeholder: `dflt` when the value is absent or empty. -/
def field_or (s : Option CStr) (dflt : CStr) : CStr :=
  match s with
  | none => dflt
  | some [] => dflt
  | some (c :: cs) => c :: cs

/-- The tag field: `NOTAG` when the tag is absent or empty, otherwise the tag
with every byte `'\n'` replaced by `';'`. -/
def tag_field (tag : Option CStr) : CStr :=
  match tag with
  | none => cstr "NOTAG"
  | some [] => cstr "NOTAG"
  | some (c :: cs) => (c :: cs).map (fun b => if b = 10 then 59 else b)

/-- Cutting a line at every occurrence of `sep`, from the left: `skip` counts the
separator bytes still to drop, `cur` is the field being read. -/
def split_scan (sep : CStr) : CStr → Nat → CStr → List CStr
  | [], _, cur => [cur]
  | _ :: cs, skip + 1, cur => split_scan sep cs skip cur
  | c :: cs, 0, cur =>
    if sep <+: c :: cs then cur :: split_scan sep cs (sep.length - 1) []
    else split_scan sep cs 0 (cur ++ [c])

/-- The fields of `line` between the occurrences of `sep`. -/
def split_fields (sep line : CStr) : List CStr := split_scan sep line 0 []

/-- A plugin record with every field present. -/
structure PlugFields where
  oid : CStr
  name : CStr
  category : Int
  copyright : CStr
  summary : CStr
  family : CStr
  version : CStr
  cve : CStr
  bid : CStr
  xref : CStr
  tag : CStr
  deriving DecidableEq, Repr

/-- The cache entry of a record with every field present. -/
def PlugFields.to_nvti (f : PlugFields) : nvti :=
  { oid := f.oid, name := some f.name, category := f.category,
    copyright := some f.copyright, summary := some f.summary, family := some f.family,
    version := some f.version, cve := some f.cve, bid := some f.bid,
    xref := some f.xref, tag := some f.tag }

/-- A two-entry category table for the examples. -/
def sample_categories : List CStr := [cstr "init", cstr "unknown"]

/-- A record for the examples: an out-of-range category, no version, no CVE, an
empty BID and a tag of two lines. -/
def sample_record : nvti :=
  { oid := cstr "1.2", name := some (cstr "nm"), category := 3,
    copyright := some (cstr "cp"), summary := some (cstr "sm"),
    family := some (cstr "fam"), version := none, cve := none, bid := some [],
    xref := some (cstr "x"), tag := some (cstr "a=b\nc=d") }

/-- A record with every field present, for the examples. -/
def sample_fields : PlugFields :=
  { oid := cstr "1.2", name := cstr "nm", category := 0, copyright := cstr "cp",
    summary := cstr "sm", family := cstr "fam", version := cstr "1.0",
    cve := cstr "CVE-1", bid := cstr "7", xref := cstr "x", tag := cstr "a=b\nc=d" }

/-- The eleven field values of a record with every field present, in the order
of the line, the category as its table string and the tag with `'\n'` rewritten
to `';'`. -/
def PlugFields.values (f : PlugFields) (categories : List CStr) (ACT_FIRST : Int) :
    List CStr :=
  [f.oid, f.name, category_string categories ACT_FIRST f.category, f.copyright,
    f.summary, f.family, f.version, f.cve, f.bid, f.xref,
    f.tag.map (fun b => if b = 10 then 59 else b)]

/-- A string that consists only of white space (the empty string included). -/
def is_blank (s : CStr) : Prop := ∀ c ∈ s, isspace c = true

instance (s : CStr) : Decidable (is_blank s) := by
  unfold is_blank; infer_instance

/-- An OID as the data model has it, a dotted numeric string: a non-empty string
of ASCII digits and dots. -/
def is_oid (s : CStr) : Prop := s ≠ [] ∧ ∀ c ∈ s, g_ascii_isdigit c = true ∨ c = 46

instance (s : CStr) : Decidable (is_oid s) := by
  unfold is_oid; infer_instance

/-- The outputs of a sequence of calls, one after the other; a fault ends it. -/
def concat_outputs : List (Except Fault CStr) → Except Fault CStr
  | [] => .ok []
  | .error e :: _ => .error e
  | .ok out :: rest =>
    match concat_outputs rest with
    | .error e => .error e
    | .ok outs => .ok (out ++ outs)

/-- The turn `e` of `comm_wait_order` lets the loop repeat: the read succeeded,
the line is not empty or the peer is present, and the interpreter returned
neither 0 nor -1. -/
def wait_repeats (e : wait_event) : Prop :=
  0 ≤ e.n ∧ ¬ (e.str = [] ∧ e.present = 0) ∧ e.parsed ≠ 0 ∧ e.parsed ≠ -1

instance (e : wait_event) : Decidable (wait_repeats e) := by
  unfold wait_repeats; infer_instance

/-- The turn `e` is rejected before the interpreter is called: the read failed,
or the line is empty and the peer is absent. -/
def wait_rejected (e : wait_event) : Prop :=
  e.n < 0 ∨ (e.str = [] ∧ e.present = 0)

instance (e : wait_event) : Decidable (wait_rejected e) := by
  unfold wait_rejected; infer_instance

/-! ## Facts about the C library model -/

theorem strcmp_eq_zero_iff (a b : CStr) : strcmp a b = 0 ↔ a = b := by
  induction a generalizing b with
  | nil => cases b <;> simp [strcmp]
  | cons x xs ih =>
    cases b with
    | nil => simp [strcmp]
    | cons y ys =>
      by_cases h : x = y
      · simp [strcmp, h, ih]
      · by_cases h2 : x < y <;> simp [strcmp, h, h2]

theorem strcmp_neg_iff (a b : CStr) : strcmp a b < 0 ↔ List.Lex (· < ·) a b := by
  induction a generalizing b with
  | nil =>
    cases b with
    | nil => simp [strcmp]
    | cons y ys => simpa [strcmp] using List.Lex.nil
  | cons x xs ih =>
    cases b with
    | nil => simp [strcmp]
    | cons y ys =>
      by_cases h : x = y
      · subst h
        simp [strcmp, ih, List.Lex.cons_iff]
      · by_cases h2 : x < y
        · simp [strcmp, h, h2, List.Lex.rel h2]
        · simp only [strcmp, h, h2, if_false]
          constructor
          · intro h3; omega
          · intro h3
            cases h3 with
            | cons h4 => exact absurd rfl h
            | rel h4 => exact absurd h4 h2

theorem strcmp_pos_iff (a b : CStr) : 0 < strcmp a b ↔ strcmp b a < 0 := by
  induction a generalizing b with
  | nil => cases b <;> simp [strcmp]
  | cons x xs ih =>
    cases b with
    | nil => simp [strcmp]
    | cons y ys =>
      by_cases h : x = y
      · subst h
        simp [strcmp, ih]
      · have h1 : ¬ y = x := fun e => h e.symm
        by_cases h2 : x < y
        · have h3 : ¬ y < x := by omega
          simp [strcmp, h, h1, h2, h3]
        · have h3 : y < x := by omega
          simp [strcmp, h, h1, h2, h3]

theorem strcmp_neg_trans {a b c : CStr} (h1 : strcmp a b < 0) (h2 : strcmp b c < 0) :
    strcmp a c < 0 := by
  rw [strcmp_neg_iff] at *
  exact IsTrans.trans _ _ _ h1 h2

/-! ## Correctness of the lookup -/

theorem find_unique {α : Type} (name : α → CStr) (oid : CStr) (l : List α)
    (hd : l.Pairwise (fun a b => name a ≠ name b)) (x : α) (hx : x ∈ l)
    (hn : name x = oid) : l.find? (fun p => name p == oid) = some x := by
  induction l with
  | nil => simp at hx
  | cons h t ih =>
    rw [List.pairwise_cons] at hd
    by_cases hh : name h = oid
    · rcases List.mem_cons.mp hx with e | e
      · simp [List.find?, hh, e]
      · exact absurd (hh.trans hn.symm) (hd.1 x e)
    · rcases List.mem_cons.mp hx with e | e
      · exact absurd (e ▸ hn) hh
      · have hb : (name h == oid) = false := by simpa using hh
        rw [List.find?_cons, hb]
        exact ih hd.2 e

theorem find_absent {α : Type} (name : α → CStr) (oid : CStr) (l : List α)
    (h : ∀ i (hi : i < l.length), name l[i] ≠ oid) :
    l.find? (fun p => name p == oid) = none := by
  rw [List.find?_eq_none]
  intro x hx
  obtain ⟨i, hi, rfl⟩ := List.getElem_of_mem hx
  simpa using h i hi

theorem strict_names_ne {α : Type} (name : α → CStr) (l : List α)
    (hs : l.Pairwise (fun a b => strcmp (name a) (name b) < 0)) :
    l.Pairwise (fun a b => name a ≠ name b) := by
  refine hs.imp ?_
  intro a b h e
  rw [e, (strcmp_eq_zero_iff _ _).mpr rfl] at h
  exact absurd h (by decide)

theorem get_plug_range {α : Type} (name : α → CStr) (array : List α) (oid : CStr)
    (hs : array.Pairwise (fun a b => strcmp (name a) (name b) < 0)) :
    ∀ (fuel start end_ : Nat), start ≤ end_ → end_ ≤ array.length → end_ - start < fuel →
      (∀ i (hi : i < array.length), name array[i] = oid → start ≤ i ∧ i ≤ end_) →
      _get_plug_by_oid name array oid fuel start end_ array.length
        = .ok (array.find? (fun p => name p == oid)) := by
  have hne := strict_names_ne name array hs
  have hidx := List.pairwise_iff_getElem.mp hs
  intro fuel
  induction fuel with
  | zero => intro start end_ _ _ h; omega
  | succ fuel ih =>
    intro start end_ hse hen hfuel hinv
    unfold _get_plug_by_oid
    by_cases h1 : start ≥ array.length
    · rw [if_pos h1, find_absent name oid array]
      intro i hi e
      have := hinv i hi e
      omega
    · rw [if_neg h1]
      have hstart : start < array.length := by omega
      by_cases h2 : start = end_
      · rw [if_pos h2, List.getElem?_eq_getElem hstart]
        by_cases h3 : strcmp (name array[start]) oid = 0
        · simp only [h3, if_true]
          rw [find_unique name oid array hne array[start] (List.getElem_mem _)
            ((strcmp_eq_zero_iff _ _).mp h3)]
        · simp only [h3, if_false]
          rw [find_absent name oid array]
          intro i hi e
          have := hinv i hi e
          have hi2 : i = start := by omega
          subst hi2
          exact h3 ((strcmp_eq_zero_iff _ _).mpr e)
      · rw [if_neg h2]
        have hmid : (start + end_) / 2 < array.length := by omega
        simp only [List.getElem?_eq_getElem hmid]
        by_cases h3 : strcmp (name array[(start + end_) / 2]) oid > 0
        · rw [if_pos h3]
          apply ih _ _ (by omega) (by omega) (by omega)
          intro i hi e
          have := hinv i hi e
          refine ⟨this.1, ?_⟩
          by_contra hgt
          have hlt := hidx _ _ hmid hi (by omega)
          rw [e] at hlt
          omega
        · rw [if_neg h3]
          by_cases h4 : strcmp (name array[(start + end_) / 2]) oid < 0
          · rw [if_pos h4]
            apply ih _ _ (by omega) (by omega) (by omega)
            intro i hi e
            have := hinv i hi e
            refine ⟨?_, this.2⟩
            by_contra hgt
            rcases Nat.lt_or_ge i ((start + end_) / 2) with hlt | hge
            · have hl := hidx _ _ hi hmid hlt
              rw [e] at hl
              exact h3 ((strcmp_pos_iff _ _).mpr hl)
            · have hi2 : i = (start + end_) / 2 := by omega
              subst hi2
              rw [(strcmp_eq_zero_iff _ _).mpr e] at h4
              exact absurd h4 (by decide)
          · rw [if_neg h4]
            have h5 : strcmp (name array[(start + end_) / 2]) oid = 0 := by omega
            rw [find_unique name oid array hne _ (List.getElem_mem _)
              ((strcmp_eq_zero_iff _ _).mp h5)]

theorem get_plug_by_oid_scan {α : Type} (name : α → CStr) (array : List α) (oid : CStr)
    (hs : array.Pairwise (fun a b => strcmp (name a) (name b) < 0)) :
    get_plug_by_oid name array oid array.length
      = .ok (array.find? (fun p => name p == oid)) := by
  unfold get_plug_by_oid
  apply get_plug_range name array oid hs _ _ _ (Nat.zero_le _) (Nat.le_refl _) (by omega)
  intro i hi _
  omega

/-! ## Correctness of the selection -/

theorem node_name_lt (plugins : List arglist) (p : Nat) (hp : p < plugins.length) :
    node_name plugins p = plugins[p].name := by
  simp [node_name, List.getElem?_eq_getElem hp]

theorem node_name_congr (plugins plugins2 : List arglist)
    (h : plugins2.map arglist.name = plugins.map arglist.name) :
    node_name plugins2 = node_name plugins := by
  funext p
  have h2 : (plugins2.map arglist.name)[p]? = (plugins.map arglist.name)[p]? := by rw [h]
  simp only [List.getElem?_map] at h2
  unfold node_name
  cases h3 : plugins2[p]? <;> cases h4 : plugins[p]? <;> simp_all

theorem names_index_ne (plugins : List arglist)
    (hd : (plugins.map arglist.name).Nodup) (i j : Nat) (hi : i < plugins.length)
    (hj : j < plugins.length) (hij : i ≠ j) : plugins[i].name ≠ plugins[j].name := by
  have h1 : plugins.Pairwise (fun a b => a.name ≠ b.name) := by
    simpa [List.Nodup, List.pairwise_map] using hd
  have h2 := List.pairwise_iff_getElem.mp h1
  rcases Nat.lt_or_gt_of_ne hij with h | h
  · exact h2 i j hi hj h
  · exact fun e => h2 j i hj hi h e.symm

/-- Setting the launch state of the node whose name is `oid`, by position or by name. -/
theorem plug_set_launch_at_eq_map (plugins : List arglist)
    (hd : (plugins.map arglist.name).Nodup) (p : Nat) (hp : p < plugins.length)
    (oid : CStr) (hn : plugins[p].name = oid) (v : Int) :
    plug_set_launch_at plugins p v
      = plugins.map (fun a => if a.name = oid then plug_set_launch a v else a) := by
  unfold plug_set_launch_at
  rw [List.getElem?_eq_getElem hp]
  apply List.ext_getElem?
  intro i
  simp only [List.getElem?_set, List.getElem?_map]
  by_cases hi : p = i
  · subst hi
    simp [hp, hn, List.getElem?_eq_getElem hp]
  · rw [if_neg hi]
    by_cases hil : i < plugins.length
    · have hne := names_index_ne plugins hd i p hil hp (fun e => hi e.symm)
      rw [hn] at hne
      simp [List.getElem?_eq_getElem hil, hne]
    · simp [List.getElem?_eq_none (Nat.le_of_not_lt hil)]

theorem map_absent (plugins : List arglist) (oid : CStr) (v : Int)
    (h : ∀ a ∈ plugins, a.name ≠ oid) :
    plugins.map (fun a => if a.name = oid then plug_set_launch a v else a) = plugins := by
  conv_rhs => rw [← List.map_id plugins]
  apply List.map_congr_left
  intro a ha
  simp [h a ha]

theorem enable_step (plugins : List arglist) (array : List Nat) (oid : CStr)
    (hd : (plugins.map arglist.name).Nodup) (hv : SortedView plugins array) :
    (match get_plug_by_oid (node_name plugins) array oid plugins.length with
      | .error _ => none
      | .ok none => some plugins
      | .ok (some p) => some (plug_set_launch_at plugins p LAUNCH_RUN))
    = some (plugins.map
        (fun a => if a.name = oid then plug_set_launch a LAUNCH_RUN else a)) := by
  have h := get_plug_by_oid_scan (node_name plugins) array oid hv.strict
  rw [hv.len] at h
  rw [h]
  cases hf : array.find? (fun p => node_name plugins p == oid) with
  | none =>
    simp only
    rw [map_absent]
    intro a ha e
    obtain ⟨i, hi, rfl⟩ := List.getElem_of_mem ha
    rw [List.find?_eq_none] at hf
    have := hf i ((hv.mem i).mpr hi)
    rw [node_name_lt plugins i hi] at this
    simp [e] at this
  | some p =>
    simp only
    have hp : p < plugins.length := (hv.mem p).mp (List.mem_of_find?_eq_some hf)
    have hn : node_name plugins p = oid := by simpa using List.find?_some hf
    rw [node_name_lt plugins p hp] at hn
    rw [plug_set_launch_at_eq_map plugins hd p hp oid hn]

theorem strcmp_le_total (a b : CStr) : strcmp a b ≤ 0 ∨ strcmp b a ≤ 0 := by
  by_cases h : strcmp a b ≤ 0
  · exact Or.inl h
  · exact Or.inr (le_of_lt ((strcmp_pos_iff a b).mp (by omega)))

theorem strcmp_le_trans {a b c : CStr} (h1 : strcmp a b ≤ 0) (h2 : strcmp b c ≤ 0) :
    strcmp a c ≤ 0 := by
  rcases lt_or_eq_of_le h1 with h1 | h1
  · rcases lt_or_eq_of_le h2 with h2 | h2
    · exact le_of_lt (strcmp_neg_trans h1 h2)
    · rw [(strcmp_eq_zero_iff _ _).mp h2] at h1
      exact le_of_lt h1
  · rw [(strcmp_eq_zero_iff _ _).mp h1]
    exact h2

/-- The array that `comm_setup_plugins` sorts with `qsort` is a sorted view of the list. -/
theorem qsort_sorted_view (plugins : List arglist)
    (hd : (plugins.map arglist.name).Nodup) :
    SortedView plugins
      (qsort (List.range plugins.length) (qsort_cmp (node_name plugins))) := by
  unfold qsort
  set r : Nat → Nat → Prop := fun a b => qsort_cmp (node_name plugins) a b ≤ 0 with hr
  haveI : IsTotal Nat r := ⟨fun a b => strcmp_le_total _ _⟩
  haveI : IsTrans Nat r := ⟨fun a b c h1 h2 => strcmp_le_trans h1 h2⟩
  have hperm := List.perm_insertionSort r (List.range plugins.length)
  have hsorted : (List.insertionSort r (List.range plugins.length)).Pairwise r :=
    List.sorted_insertionSort r (List.range plugins.length)
  have hmem : ∀ p, p ∈ List.insertionSort r (List.range plugins.length)
      ↔ p < plugins.length := by
    intro p
    rw [hperm.mem_iff, List.mem_range]
  have hnd : (List.insertionSort r (List.range plugins.length)).Pairwise (· ≠ ·) :=
    (hperm.nodup_iff.mpr (List.nodup_range _))
  refine ⟨?_, hmem, ?_⟩
  · refine (hsorted.and hnd).imp_of_mem ?_
    intro a b ha hb hab
    have ha2 := (hmem a).mp ha
    have hb2 := (hmem b).mp hb
    have hne := names_index_ne plugins hd a b ha2 hb2 hab.2
    rw [← node_name_lt plugins a ha2, ← node_name_lt plugins b hb2] at hne
    have h0 : strcmp (node_name plugins a) (node_name plugins b) ≠ 0 :=
      fun e => hne ((strcmp_eq_zero_iff _ _).mp e)
    have h1 : strcmp (node_name plugins a) (node_name plugins b) ≤ 0 := hab.1
    omega
  · rw [hperm.length_eq, List.length_range]

theorem map_step_names (plugins : List arglist) (oid : CStr) (v : Int) :
    (plugins.map (fun a => if a.name = oid then plug_set_launch a v else a)).map arglist.name
      = plugins.map arglist.name := by
  rw [List.map_map]
  apply List.map_congr_left
  intro a _
  simp only [Function.comp]
  split <;> rfl

theorem sorted_view_congr (plugins plugins2 : List arglist) (array : List Nat)
    (h : plugins2.map arglist.name = plugins.map arglist.name)
    (hv : SortedView plugins array) : SortedView plugins2 array := by
  have hl : plugins2.length = plugins.length := by
    simpa using congrArg List.length h
  refine ⟨?_, ?_, ?_⟩
  · rw [node_name_congr plugins plugins2 h]; exact hv.strict
  · intro p; rw [hl]; exact hv.mem p
  · rw [hl]; exact hv.len

theorem enable_selected_eq (array : List Nat) (toks : List CStr) :
    ∀ (plugins : List arglist), (plugins.map arglist.name).Nodup →
      SortedView plugins array →
      enable_selected array plugins.length toks plugins
        = .ok (plugins.map
            (fun a => if a.name ∈ toks then plug_set_launch a LAUNCH_RUN else a)) := by
  induction toks with
  | nil =>
    intro plugins _ _
    simp [enable_selected]
  | cons oid rest ih =>
    intro plugins hd hv
    have hstep := enable_step plugins array oid hd hv
    have hnames := map_step_names plugins oid LAUNCH_RUN
    have hd2 : ((plugins.map
        (fun a => if a.name = oid then plug_set_launch a LAUNCH_RUN else a)).map
          arglist.name).Nodup := by rw [hnames]; exact hd
    have hv2 := sorted_view_congr plugins _ array hnames hv
    have hl : (plugins.map
        (fun a => if a.name = oid then plug_set_launch a LAUNCH_RUN else a)).length
          = plugins.length := by simp
    have hrec := ih _ hd2 hv2
    rw [hl] at hrec
    have hfin : (plugins.map
        (fun a => if a.name = oid then plug_set_launch a LAUNCH_RUN else a)).map
          (fun a => if a.name ∈ rest then plug_set_launch a LAUNCH_RUN else a)
        = plugins.map
          (fun a => if a.name ∈ oid :: rest then plug_set_launch a LAUNCH_RUN else a) := by
      rw [List.map_map]
      apply List.map_congr_left
      intro a _
      simp only [Function.comp, List.mem_cons]
      by_cases h1 : a.name = oid
      · by_cases h2 : a.name ∈ rest <;> simp [h1, h2, plug_set_launch]
      · by_cases h2 : a.name ∈ rest <;> simp [h1, h2]
    unfold enable_selected
    cases hg : get_plug_by_oid (node_name plugins) array oid plugins.length with
    | error e => rw [hg] at hstep; simp at hstep
    | ok res =>
      rw [hg] at hstep
      cases res with
      | none =>
        simp only at hstep ⊢
        have hp := Option.some.inj hstep
        rw [← hfin, ← hp]
        rw [← hp] at hrec
        exact hrec
      | some p =>
        simp only at hstep ⊢
        have hp := Option.some.inj hstep
        rw [hp, hrec, hfin]

theorem strtok_scan_eq (delim : Nat) (s : CStr) :
    ∀ cur : CStr, strtok_scan delim s cur
      = (((s.splitOn delim).modifyHead (fun t => cur ++ t)).filter (fun t => t ≠ [])) := by
  induction s with
  | nil =>
    intro cur
    by_cases h : cur = [] <;> simp [strtok_scan, List.splitOn, List.splitOnP_nil, h]
  | cons c cs ih =>
    intro cur
    unfold strtok_scan
    simp only [List.splitOn] at ih ⊢
    rw [List.splitOnP_cons]
    by_cases hc : c = delim
    · have hb : (c == delim) = true := by simpa using hc
      rw [if_pos hc, if_pos hb, ih []]
      have hid : List.modifyHead (fun t : CStr => t) = id := List.modifyHead_id
      by_cases h : cur = [] <;> simp [h, hid]
    · have hb : ¬ (c == delim) = true := by simpa using hc
      rw [if_neg hc, if_neg hb, ih (cur ++ [c]), List.modifyHead_modifyHead]
      congr 2
      funext t
      simp

theorem mem_strtok_all (list oid : CStr) :
    oid ∈ strtok_all list 59 ↔ is_token 59 list oid := by
  unfold strtok_all is_token
  rw [strtok_scan_eq]
  have hid : (fun t : CStr => [] ++ t) = id := by funext t; simp
  rw [hid, List.modifyHead_id]
  simp [List.mem_filter, and_comm]

/-! ## Plugin selection (`comm_setup_plugins`) -/

theorem strict_of_sorted_distinct {α : Type} (name : α → CStr) (array : List α)
    (hsorted : array.Pairwise (fun a b => strcmp (name a) (name b) ≤ 0))
    (hdistinct : (array.map name).Nodup) :
    array.Pairwise (fun a b => strcmp (name a) (name b) < 0) := by
  have h1 : array.Pairwise (fun a b => name a ≠ name b) := by
    simpa [List.Nodup, List.pairwise_map] using hdistinct
  refine (hsorted.and h1).imp ?_
  intro a b hab
  have h0 : strcmp (name a) (name b) ≠ 0 := fun e => hab.2 ((strcmp_eq_zero_iff _ _).mp e)
  have := hab.1
  omega

theorem scan_some_iff {α : Type} (name : α → CStr) (array : List α) (q : CStr)
    (hs : array.Pairwise (fun a b => strcmp (name a) (name b) < 0)) (p : α) :
    array.find? (fun x => name x == q) = some p ↔ (p ∈ array ∧ name p = q) := by
  constructor
  · intro h
    exact ⟨List.mem_of_find?_eq_some h, by simpa using List.find?_some h⟩
  · intro h
    exact find_unique name q array (strict_names_ne name array hs) p h.1 h.2

/-- C1 (as amended). For every plugin list with pairwise distinct OIDs and every
selection list `list` with `atoi (list) != -1`, `comm_setup_plugins` returns and
leaves every record with its OID, in launch state `LAUNCH_RUN` if its OID is a
non-empty `';'`-delimited token of `list` and in launch state `LAUNCH_DISABLED`
otherwise. -/
theorem comm_setup_plugins_selection (list : CStr) (plugins : List arglist)
    (hd : (plugins.map arglist.name).Nodup) (hl : atoi list ≠ -1) :
    comm_setup_plugins (some list) (some plugins)
      = .ok (some (plugins.map (fun p => plug_set_launch p
          (if is_token 59 list p.name then LAUNCH_RUN else LAUNCH_DISABLED)))) := by
  unfold comm_setup_plugins
  simp only [Option.getD_some, if_neg hl]
  by_cases h0 : plugins.length = 0
  · have : plugins = [] := List.length_eq_zero.mp h0
    subst this
    simp
  · have hdis : ¬ (plugins.length = 0 ∨ LAUNCH_DISABLED ≠ 0) := by
      simp [h0, LAUNCH_DISABLED]
    rw [if_neg hdis]
    have hnames : (plugins.map (fun p => plug_set_launch p LAUNCH_DISABLED)).map arglist.name
        = plugins.map arglist.name := by
      rw [List.map_map]
      apply List.map_congr_left
      intro a _
      rfl
    have hlen : (plugins.map (fun p => plug_set_launch p LAUNCH_DISABLED)).length
        = plugins.length := by simp
    have hd2 : ((plugins.map (fun p => plug_set_launch p LAUNCH_DISABLED)).map
        arglist.name).Nodup := by rw [hnames]; exact hd
    have hv := qsort_sorted_view _ hd2
    have hsel := enable_selected_eq _ (strtok_all list 59) _ hd2 hv
    rw [hlen] at hsel
    rw [hsel, List.map_map]
    simp only
    congr 2
    apply List.map_congr_left
    intro a _
    simp only [Function.comp]
    have hn : (plug_set_launch a LAUNCH_DISABLED).name = a.name := rfl
    have ht2 := mem_strtok_all list a.name
    by_cases ht : is_token 59 list a.name
    · simp [hn, ht2.mpr ht, ht, plug_set_launch]
    · have ht3 : a.name ∉ strtok_all list 59 := fun h => ht (ht2.mp h)
      simp [hn, ht3, ht, plug_set_launch]

/-- C1, witness: the selection list `1.3;1.1;` on the OIDs `1.1`, `1.2`, `1.3`. -/
theorem comm_setup_plugins_selection_witness :
    comm_setup_plugins (some (cstr "1.3;1.1;"))
        (some [⟨cstr "1.1", 7⟩, ⟨cstr "1.2", 1⟩, ⟨cstr "1.3", 0⟩])
      = .ok (some [⟨cstr "1.1", LAUNCH_RUN⟩, ⟨cstr "1.2", LAUNCH_DISABLED⟩,
          ⟨cstr "1.3", LAUNCH_RUN⟩]) :=
  comm_setup_plugins_selection (cstr "1.3;1.1;")
    [⟨cstr "1.1", 7⟩, ⟨cstr "1.2", 1⟩, ⟨cstr "1.3", 0⟩] (by decide) (by decide)

/-- C1, counterexample: the list `-1` is not the literal `-1;` and has no token
`1.1`, yet the record with OID `1.1` ends in launch state `LAUNCH_RUN`. -/
theorem comm_setup_plugins_literal_counterexample :
    cstr "-1" ≠ cstr "-1;" ∧ ¬ is_token 59 (cstr "-1") (cstr "1.1") ∧
    comm_setup_plugins (some (cstr "-1")) (some [⟨cstr "1.1", LAUNCH_DISABLED⟩])
      = .ok (some [⟨cstr "1.1", LAUNCH_RUN⟩]) := by
  decide

/-- C2. For every plugin list (also `NULL`) and whatever the launch states were,
`comm_setup_plugins` called without a list or with the list `-1;` returns and
leaves every record with its OID and in launch state `LAUNCH_RUN`. -/
theorem comm_setup_plugins_enable_all (global_plugins : Option (List arglist)) :
    comm_setup_plugins none global_plugins
      = .ok (global_plugins.map (List.map (fun p => plug_set_launch p LAUNCH_RUN))) ∧
    comm_setup_plugins (some (cstr "-1;")) global_plugins
      = .ok (global_plugins.map (List.map (fun p => plug_set_launch p LAUNCH_RUN))) := by
  have ha : atoi (cstr "-1;") = -1 := by decide
  cases global_plugins with
  | none => exact ⟨rfl, rfl⟩
  | some plugins =>
    constructor <;>
    · unfold comm_setup_plugins
      simp [ha, LAUNCH_RUN]

/-! ## Plugin lookup (`get_plug_by_oid`) -/

/-- C3. On an array sorted ascending by OID under `strcmp` with pairwise distinct
OIDs, `get_plug_by_oid` with the array length returns, and returns what a linear
scan returns: the record whose OID equals the query when there is one, `NULL`
when there is none (in particular on the empty array). -/
theorem get_plug_by_oid_linear_scan {α : Type} (name : α → CStr) (array : List α)
    (q : CStr)
    (hsorted : array.Pairwise (fun a b => strcmp (name a) (name b) ≤ 0))
    (hdistinct : (array.map name).Nodup) :
    get_plug_by_oid name array q array.length = .ok (linear_scan name array q) ∧
    (∀ p, get_plug_by_oid name array q array.length = .ok (some p)
      ↔ (p ∈ array ∧ name p = q)) ∧
    (get_plug_by_oid name array q array.length = .ok none
      ↔ ∀ p ∈ array, name p ≠ q) := by
  have hs := strict_of_sorted_distinct name array hsorted hdistinct
  have h := get_plug_by_oid_scan name array q hs
  refine ⟨h, ?_, ?_⟩
  · intro p
    rw [h]
    constructor
    · intro e
      have e2 : array.find? (fun x => name x == q) = some p := Except.ok.inj e
      exact (scan_some_iff name array q hs p).mp e2
    · intro e
      rw [(scan_some_iff name array q hs p).mpr e]
  · rw [h]
    constructor
    · intro e
      have e2 : array.find? (fun x => name x == q) = none := Except.ok.inj e
      rw [List.find?_eq_none] at e2
      intro p hp
      simpa using e2 p hp
    · intro e
      have e2 : array.find? (fun x => name x == q) = none := by
        rw [List.find?_eq_none]
        intro p hp
        simpa using e p hp
      rw [e2]

/-- C3, witness: three sorted records, a query that is present. -/
theorem get_plug_by_oid_linear_scan_witness :
    get_plug_by_oid arglist.name
        [⟨cstr "1.1", 0⟩, ⟨cstr "1.10", 0⟩, ⟨cstr "1.2", 0⟩] (cstr "1.10") 3
      = .ok (some ⟨cstr "1.10", 0⟩) :=
  ((get_plug_by_oid_linear_scan arglist.name
    [⟨cstr "1.1", 0⟩, ⟨cstr "1.10", 0⟩, ⟨cstr "1.2", 0⟩] (cstr "1.10")
    (by decide) (by decide)).2.1 ⟨cstr "1.10", 0⟩).mpr (by decide)

/-! ## Handshake (`comm_init`) -/

/-- C4 (as amended). `comm_init` returns 0, and answers with the marker line, exactly
when `recv_line` returned a positive count and the first 11 bytes of the received
line are `< OTP/2.0 >`; the bytes after them are not looked at. In every other
case it returns -1 and sends nothing. -/
theorem comm_init_accepts_marker_start (n : Int) (buf : CStr) :
    comm_init n buf
      = if 0 < n ∧ cstr "< OTP/2.0 >" <+: buf then (0, cstr "< OTP/2.0 >\n")
        else (-1, []) := by
  have hlen : (cstr "< OTP/2.0 >").length = 11 := by decide
  have hkey : strncmp (buf.take 1023) (cstr "< OTP/2.0 >") 11 = 0
      ↔ cstr "< OTP/2.0 >" <+: buf := by
    unfold strncmp
    rw [strcmp_eq_zero_iff, List.take_take, List.prefix_iff_eq_take, hlen]
    have h11 : min 11 1023 = 11 := by decide
    have ht : List.take 11 (cstr "< OTP/2.0 >") = cstr "< OTP/2.0 >" := by decide
    rw [h11, ht]
    exact eq_comm
  unfold comm_init
  by_cases hn : n ≤ 0
  · have hn2 : ¬ 0 < n := by omega
    simp [hn, hn2]
  · have hn2 : 0 < n := by omega
    by_cases hp : cstr "< OTP/2.0 >" <+: buf
    · simp [hn, hn2, hp, hkey.mpr hp]
    · have hk : ¬ strncmp (buf.take 1023) (cstr "< OTP/2.0 >") 11 = 0 :=
        fun h => hp (hkey.mp h)
      simp [hn, hn2, hp, hk]

/-- C4, counterexample: the received line `< OTP/2.0 >xyz` is not the marker, yet
`comm_init` returns 0 and answers. -/
theorem comm_init_trailing_garbage_counterexample :
    cstr "< OTP/2.0 >xyz" ≠ cstr "< OTP/2.0 >" ∧
    comm_init 14 (cstr "< OTP/2.0 >xyz") = (0, cstr "< OTP/2.0 >\n") := by
  decide

/-! ## Feed version (`is_valid_feed_version`) -/

theorem is_valid_feed_version_loop_iff (s : CStr) :
    is_valid_feed_version_loop s = 1 ↔ ∀ c ∈ s, g_ascii_isdigit c = true := by
  induction s with
  | nil => simp [is_valid_feed_version_loop]
  | cons c cs ih =>
    unfold is_valid_feed_version_loop
    by_cases h : g_ascii_isdigit c = true
    · simp [h, ih]
    · simp [h]

/-- What `is_valid_feed_version` accepts: every present string of ASCII digits,
the empty string included. -/
theorem is_valid_feed_version_iff (feed_version : Option CStr) :
    is_valid_feed_version feed_version = 1
      ↔ ∃ s, feed_version = some s ∧ ∀ c ∈ s, g_ascii_isdigit c = true := by
  cases feed_version with
  | none => simp [is_valid_feed_version]
  | some s => simp [is_valid_feed_version, is_valid_feed_version_loop_iff]

/-- C5, the code at the failing input: `is_valid_feed_version` accepts the empty
string (it returns 1), while it accepts `1234` and rejects `12a4` and `NULL`. -/
theorem is_valid_feed_version_empty_accepted :
    is_valid_feed_version (some (cstr "")) = 1 ∧
    is_valid_feed_version (some (cstr "1234")) = 1 ∧
    is_valid_feed_version (some (cstr "12a4")) = 0 ∧
    is_valid_feed_version none = 0 := by
  decide

/-! ## Facts about `send_plug_info` -/

theorem strchr_isSome_iff (s : CStr) (c : Nat) : (strchr s c).isSome = true ↔ c ∈ s := by
  induction s with
  | nil => simp [strchr]
  | cons b bs ih =>
    unfold strchr
    by_cases h : b = c
    · simp [h]
    · have h2 : ¬ c = b := fun e => h e.symm
      simp [h, h2, ih]

theorem strstr_isSome_iff (h n : CStr) : (strstr h n).isSome = true ↔ n <:+: h := by
  induction h with
  | nil =>
    unfold strstr
    by_cases e : n = [] <;> simp [e]
  | cons b bs ih =>
    unfold strstr
    rw [List.infix_cons_iff]
    by_cases hp : n <+: b :: bs
    · simp [hp]
    · simp [hp, ih]

theorem or_default_eq_field_or (s : Option CStr) (dflt : CStr) :
    or_default s dflt = field_or s dflt := by
  cases s with
  | none => rfl
  | some v => cases v <;> simp [or_default, field_or, strcmp]

theorem cat_index_range (categories : List CStr) (ACT_FIRST j : Int)
    (hcat : is_table categories) (hj : is_int j) :
    0 ≤ cat_index categories.length ACT_FIRST j ∧
      cat_index categories.length ACT_FIRST j < categories.length := by
  obtain ⟨hne, hlen⟩ := hcat
  obtain ⟨hlo, hhi⟩ := hj
  have hpos : (0 : Int) < categories.length := by
    have := List.length_pos.mpr hne
    omega
  unfold cat_index to_size_t
  norm_num at hlo hhi hlen ⊢
  split
  · omega
  · rename_i hc
    omega

theorem category_lookup (categories : List CStr) (ACT_FIRST j : Int)
    (hcat : is_table categories) (hj : is_int j) :
    ¬ cat_index categories.length ACT_FIRST j < 0 ∧
    categories[(cat_index categories.length ACT_FIRST j).toNat]?
      = some (category_string categories ACT_FIRST j) ∧
    category_string categories ACT_FIRST j ∈ categories := by
  obtain ⟨h0, h1⟩ := cat_index_range categories ACT_FIRST j hcat hj
  have hlt : (cat_index categories.length ACT_FIRST j).toNat < categories.length := by
    omega
  refine ⟨by omega, ?_, ?_⟩
  · unfold category_string
    rw [List.getD_eq_getElem?_getD, List.getElem?_eq_getElem hlt]
    rfl
  · unfold category_string
    rw [List.getD_eq_getElem?_getD, List.getElem?_eq_getElem hlt]
    exact List.getElem_mem _

theorem code_summary_eq (r : nvti) :
    (match r.tag with
      | some tag => if (strstr tag (cstr "summary=")).isSome then some (cstr "NOSUMMARY")
                    else r.summary
      | none => r.summary) = effective_summary r := by
  unfold effective_summary
  cases r.tag with
  | none => rfl
  | some tag =>
    by_cases h : cstr "summary=" <:+: tag
    · simp [h, (strstr_isSome_iff tag _).mpr h]
    · have h2 : ¬ (strstr tag (cstr "summary=")).isSome = true :=
        fun e => h ((strstr_isSome_iff tag _).mp e)
      simp [h, h2]

/-- A record whose name, copyright and printed summary are present is skipped
when its family is absent or one of the three holds a line-break. -/
theorem send_plug_info_skip (categories : List CStr) (ACT_FIRST : Int)
    (cache : CStr → Option nvti) (plugins : arglist) (r : nvti)
    (name copyright summary : CStr)
    (hr : cache plugins.name = some r) (hn : r.name = some name)
    (hc : r.copyright = some copyright) (hs : effective_summary r = some summary)
    (hskip : r.family = none ∨ 10 ∈ name ∨ 10 ∈ copyright ∨ 10 ∈ summary) :
    send_plug_info categories ACT_FIRST cache plugins = .ok [] := by
  unfold send_plug_info
  simp only [hr, code_summary_eq, hn, hc, hs]
  have hig : (!((((((Option.isNone (some name) || Option.isNone (some copyright))
      || Option.isNone (some summary)) || r.family.isNone) || (strchr name 10).isSome)
      || (strchr copyright 10).isSome) || (strchr summary 10).isSome)) = false := by
    rcases hskip with h | h | h | h
    · simp [h]
    · simp [(strchr_isSome_iff name 10).mpr h]
    · simp [(strchr_isSome_iff copyright 10).mpr h]
    · simp [(strchr_isSome_iff summary 10).mpr h]
  rw [hig]
  rfl

/-- A record with name, copyright, printed summary and family, none of the first
three with a line-break, is sent as one line of eleven fields. -/
theorem send_plug_info_line (categories : List CStr) (ACT_FIRST : Int)
    (cache : CStr → Option nvti) (plugins : arglist) (r : nvti)
    (name copyright summary family : CStr)
    (hr : cache plugins.name = some r) (hn : r.name = some name)
    (hc : r.copyright = some copyright) (hs : effective_summary r = some summary)
    (hf : r.family = some family)
    (hnl : 10 ∉ name ∧ 10 ∉ copyright ∧ 10 ∉ summary)
    (hcat : is_table categories) (hj : is_int r.category) :
    send_plug_info categories ACT_FIRST cache plugins
      = .ok (List.intercalate (cstr " <|> ")
          [r.oid, name, category_string categories ACT_FIRST r.category, copyright,
            summary, family, r.version.getD (cstr "?"), field_or r.cve (cstr "NOCVE"),
            field_or r.bid (cstr "NOBID"), field_or r.xref (cstr "NOXREF"),
            tag_field r.tag] ++ cstr "\n") := by
  obtain ⟨hl0, hl1, hl2⟩ := category_lookup categories ACT_FIRST r.category hcat hj
  have h1 : (strchr name 10).isSome = false := by
    simpa using fun e => hnl.1 ((strchr_isSome_iff name 10).mp e)
  have h2 : (strchr copyright 10).isSome = false := by
    simpa using fun e => hnl.2.1 ((strchr_isSome_iff copyright 10).mp e)
  have h3 : (strchr summary 10).isSome = false := by
    simpa using fun e => hnl.2.2 ((strchr_isSome_iff summary 10).mp e)
  have htag : (match r.tag with
      | none => cstr "NOTAG"
      | some tag => if strcmp tag [] = 0 then cstr "NOTAG" else tag_rewrite tag)
      = tag_field r.tag := by
    cases r.tag with
    | none => rfl
    | some t => cases t <;> simp [tag_field, strcmp, tag_rewrite]
  unfold send_plug_info
  simp only [hr, code_summary_eq, hn, hc, hs, hf, h1, h2, h3, htag, or_default_eq_field_or]
  simp only [Option.isNone_some, Bool.or_self, Bool.not_false, if_true, if_neg hl0, hl1,
    Option.getD_some]
  simp [List.intercalate, List.intersperse]

theorem send_plug_info_null (categories : List CStr) (ACT_FIRST : Int)
    (cache : CStr → Option nvti) (plugins : arglist) (r : nvti)
    (hr : cache plugins.name = some r)
    (h : r.name = none ∨ r.copyright = none ∨ effective_summary r = none) :
    send_plug_info categories ACT_FIRST cache plugins = .error .null_deref := by
  unfold send_plug_info
  simp only [hr, code_summary_eq]
  rcases h with h | h | h
  · rw [h]
  · rw [h]
    cases r.name <;> rfl
  · rw [h]
    cases r.name <;> cases r.copyright <;> rfl

theorem not_mem_field_or (s : Option CStr) (dflt : CStr) (b : Nat)
    (hs : b ∉ s.getD []) (hd : b ∉ dflt) : b ∉ field_or s dflt := by
  cases s with
  | none => exact hd
  | some v =>
    cases v with
    | nil => exact hd
    | cons c cs => exact hs

theorem tag_field_no_newline (tag : Option CStr) : 10 ∉ tag_field tag := by
  cases tag with
  | none => decide
  | some v =>
    cases v with
    | nil => decide
    | cons c cs =>
      unfold tag_field
      intro h
      obtain ⟨x, _, hx⟩ := List.mem_map.mp h
      by_cases e : x = 10
      · simp [e] at hx
      · simp [e] at hx

/-! ## Plugin information (`send_plug_info`) -/

/-- C6. For a record found in the cache whose name, copyright and family are
present, whose effective summary is present, and whose name, copyright and
effective summary hold no line-break, `send_plug_info` sends exactly the eleven
fields OID, name, category string, copyright, effective summary, family, version
(`?` if absent), CVE, BID, xref, tag (with their placeholders, the tag with `'\n'`
rewritten to `';'`), joined by ` <|> ` and followed by a newline. The category
table is a C array (non-empty) and the category an `int`. -/
theorem send_plug_info_format (categories : List CStr) (ACT_FIRST : Int)
    (cache : CStr → Option nvti) (plugins : arglist) (r : nvti)
    (name copyright summary family : CStr)
    (hr : cache plugins.name = some r) (hn : r.name = some name)
    (hc : r.copyright = some copyright) (hs : effective_summary r = some summary)
    (hf : r.family = some family)
    (hnl : 10 ∉ name ∧ 10 ∉ copyright ∧ 10 ∉ summary)
    (hcat : is_table categories) (hj : is_int r.category) :
    send_plug_info categories ACT_FIRST cache plugins
      = .ok (List.intercalate (cstr " <|> ")
          [r.oid, name, category_string categories ACT_FIRST r.category, copyright,
            summary, family, r.version.getD (cstr "?"), field_or r.cve (cstr "NOCVE"),
            field_or r.bid (cstr "NOBID"), field_or r.xref (cstr "NOXREF"),
            tag_field r.tag] ++ cstr "\n") :=
  send_plug_info_line categories ACT_FIRST cache plugins r name copyright summary family
    hr hn hc hs hf hnl hcat hj

/-- C6, witness: a record with an out-of-range category, no version, no CVE, an
empty BID and a tag of two lines. -/
theorem send_plug_info_format_witness :
    send_plug_info sample_categories 0 (fun _ => some sample_record) ⟨cstr "1.2", 0⟩
      = .ok (cstr
          "1.2 <|> nm <|> unknown <|> cp <|> sm <|> fam <|> ? <|> NOCVE <|> NOBID <|> x <|> a=b;c=d\n") :=
  send_plug_info_format sample_categories 0 (fun _ => some sample_record)
    ⟨cstr "1.2", 0⟩ sample_record (cstr "nm") (cstr "cp") (cstr "sm") (cstr "fam")
    rfl rfl rfl (by decide) rfl (by decide) ⟨by decide, by decide⟩ ⟨by decide, by decide⟩

/-- C8, the code at the failing input: for a record without a name
`send_plug_info` passes the `NULL` name to `strchr` (a fault) instead of returning
with nothing sent. -/
theorem send_plug_info_no_name_fault :
    send_plug_info sample_categories 0
        (fun _ => some
          { oid := cstr "1.2", name := none, category := 0,
            copyright := some (cstr "cp"), summary := some (cstr "sm"),
            family := some (cstr "fam"), version := none, cve := none, bid := none,
            xref := none, tag := none })
        ⟨cstr "1.2", 0⟩
      = .error .null_deref := by
  decide

/-- C9 (as amended). A record that has a name and a copyright and whose effective
summary is present, but whose family is absent, is skipped: `send_plug_info`
returns and sends nothing, whatever its tag and other fields. -/
theorem send_plug_info_no_family (categories : List CStr) (ACT_FIRST : Int)
    (cache : CStr → Option nvti) (plugins : arglist) (r : nvti)
    (hr : cache plugins.name = some r) (hn : r.name ≠ none)
    (hc : r.copyright ≠ none) (hs : effective_summary r ≠ none)
    (hf : r.family = none) :
    send_plug_info categories ACT_FIRST cache plugins = .ok [] := by
  obtain ⟨name, hn2⟩ := Option.ne_none_iff_exists'.mp hn
  obtain ⟨copyright, hc2⟩ := Option.ne_none_iff_exists'.mp hc
  obtain ⟨summary, hs2⟩ := Option.ne_none_iff_exists'.mp hs
  exact send_plug_info_skip categories ACT_FIRST cache plugins r name copyright summary
    hr hn2 hc2 hs2 (Or.inl hf)

/-- C9, witness: a record without family. -/
theorem send_plug_info_no_family_witness :
    send_plug_info sample_categories 0
        (fun _ => some
          { oid := cstr "1.2", name := some (cstr "nm"), category := 0,
            copyright := some (cstr "cp"), summary := some (cstr "sm"),
            family := none, version := none, cve := none, bid := none,
            xref := none, tag := some (cstr "a=b") })
        ⟨cstr "1.2", 0⟩
      = .ok [] :=
  send_plug_info_no_family sample_categories 0 _ ⟨cstr "1.2", 0⟩ _ rfl
    (by decide) (by decide) (by decide) rfl

/-- C9, counterexample: a record with name, copyright and family but without
summary, whose tag contains `summary=`, is transmitted (with `NOSUMMARY`). -/
theorem send_plug_info_no_summary_counterexample :
    send_plug_info sample_categories 0
        (fun _ => some
          { oid := cstr "1.2", name := some (cstr "nm"), category := 0,
            copyright := some (cstr "cp"), summary := none,
            family := some (cstr "fam"), version := none, cve := none, bid := none,
            xref := none, tag := some (cstr "summary=x") })
        ⟨cstr "1.2", 0⟩
      = .ok (cstr
          "1.2 <|> nm <|> init <|> cp <|> NOSUMMARY <|> fam <|> ? <|> NOCVE <|> NOBID <|> NOXREF <|> summary=x\n") := by
  decide

/-- C10 (as amended). For a record whose name, copyright and effective summary
are present and whose OID, family, version, CVE, BID, xref and category strings
hold no line-break, `send_plug_info` returns and either sends nothing or sends a
text with exactly one `'\n'`, its last byte; it sends nothing when name,
copyright or effective summary holds a line-break. -/
theorem send_plug_info_single_newline (categories : List CStr) (ACT_FIRST : Int)
    (cache : CStr → Option nvti) (plugins : arglist) (r : nvti)
    (name copyright summary : CStr)
    (hr : cache plugins.name = some r) (hn : r.name = some name)
    (hc : r.copyright = some copyright) (hs : effective_summary r = some summary)
    (hcat : is_table categories) (hj : is_int r.category)
    (hclean : 10 ∉ r.oid ∧ 10 ∉ r.family.getD [] ∧ 10 ∉ r.version.getD [] ∧
      10 ∉ r.cve.getD [] ∧ 10 ∉ r.bid.getD [] ∧ 10 ∉ r.xref.getD [] ∧
      ∀ c ∈ categories, 10 ∉ c) :
    (send_plug_info categories ACT_FIRST cache plugins = .ok [] ∨
      ∃ line, send_plug_info categories ACT_FIRST cache plugins = .ok (line ++ [10]) ∧
        10 ∉ line) ∧
    (10 ∈ name ∨ 10 ∈ copyright ∨ 10 ∈ summary →
      send_plug_info categories ACT_FIRST cache plugins = .ok []) := by
  obtain ⟨ho, hfam, hver, hcve, hbid, hxref, hcats⟩ := hclean
  refine ⟨?_, fun h => send_plug_info_skip categories ACT_FIRST cache plugins r name
    copyright summary hr hn hc hs (Or.inr h)⟩
  cases hf : r.family with
  | none =>
    exact Or.inl (send_plug_info_skip categories ACT_FIRST cache plugins r name
      copyright summary hr hn hc hs (Or.inl hf))
  | some family =>
    by_cases hnl : 10 ∈ name ∨ 10 ∈ copyright ∨ 10 ∈ summary
    · exact Or.inl (send_plug_info_skip categories ACT_FIRST cache plugins r name
        copyright summary hr hn hc hs (Or.inr hnl))
    · have hnl2 : 10 ∉ name ∧ 10 ∉ copyright ∧ 10 ∉ summary :=
        ⟨fun h => hnl (Or.inl h), fun h => hnl (Or.inr (Or.inl h)),
          fun h => hnl (Or.inr (Or.inr h))⟩
      refine Or.inr ⟨_, send_plug_info_line categories ACT_FIRST cache plugins r name
        copyright summary family hr hn hc hs hf hnl2 hcat hj, ?_⟩
      have hcs := hcats _ (category_lookup categories ACT_FIRST r.category hcat hj).2.2
      have hfam2 : 10 ∉ family := by simpa [hf] using hfam
      have hv : 10 ∉ r.version.getD (cstr "?") := by
        cases hv0 : r.version with
        | none => decide
        | some v => simpa [hv0] using hver
      have h1 := not_mem_field_or r.cve (cstr "NOCVE") 10 hcve (by decide)
      have h2 := not_mem_field_or r.bid (cstr "NOBID") 10 hbid (by decide)
      have h3 := not_mem_field_or r.xref (cstr "NOXREF") 10 hxref (by decide)
      have h4 := tag_field_no_newline r.tag
      have hsep : 10 ∉ cstr " <|> " := by decide
      obtain ⟨hn1, hn2, hn3⟩ := hnl2
      simp only [List.intercalate, List.intersperse, List.mem_flatten, List.mem_cons,
        List.not_mem_nil, or_false, not_exists, not_and]
      intro l hl
      rcases hl with e | e | e | e | e | e | e | e | e | e | e | e | e | e | e | e | e | e
        | e | e | e <;> rw [e] <;> assumption

/-- C10, witness: the sample record is sent as one line. -/
theorem send_plug_info_single_newline_witness :
    (send_plug_info sample_categories 0 (fun _ => some sample_record) ⟨cstr "1.2", 0⟩
        = .ok [] ∨
      ∃ line, send_plug_info sample_categories 0 (fun _ => some sample_record)
          ⟨cstr "1.2", 0⟩ = .ok (line ++ [10]) ∧ 10 ∉ line) ∧
    (10 ∈ cstr "nm" ∨ 10 ∈ cstr "cp" ∨ 10 ∈ cstr "sm" →
      send_plug_info sample_categories 0 (fun _ => some sample_record) ⟨cstr "1.2", 0⟩
        = .ok []) :=
  send_plug_info_single_newline sample_categories 0 (fun _ => some sample_record)
    ⟨cstr "1.2", 0⟩ sample_record (cstr "nm") (cstr "cp") (cstr "sm")
    rfl rfl rfl (by decide) ⟨by decide, by decide⟩ ⟨by decide, by decide⟩ (by decide)

/-- C10, counterexample: a line-break in the family is copied to the output, which
then holds two `'\n'` bytes. -/
theorem send_plug_info_family_newline_counterexample :
    send_plug_info sample_categories 0
        (fun _ => some { sample_record with family := some (cstr "fa\nm") })
        ⟨cstr "1.2", 0⟩
      = .ok (cstr
          "1.2 <|> nm <|> unknown <|> cp <|> sm <|> fa\nm <|> ? <|> NOCVE <|> NOBID <|> x <|> a=b;c=d\n") ∧
    (cstr
      "1.2 <|> nm <|> unknown <|> cp <|> sm <|> fa\nm <|> ? <|> NOCVE <|> NOBID <|> x <|> a=b;c=d\n").count
        10 = 2 := by
  decide

/-! ## Splitting a plugin information line -/

theorem sep_bytes : cstr " <|> " = [32, 60, 124, 62, 32] := by decide

theorem bar_bytes : cstr "<|>" = [60, 124, 62] := by decide

theorem bar_free_tail (x : Nat) (f : CStr) (h : ¬ cstr "<|>" <:+: x :: f) :
    ¬ cstr "<|>" <:+: f := by
  intro h2
  exact h (List.infix_cons h2)

/-- No separator starts inside a field without `<|>` that is followed by the end
of the line or by a separator. -/
theorem sep_not_at_field (x : Nat) (f rest : CStr) (h : ¬ cstr "<|>" <:+: x :: f)
    (hrest : rest = [] ∨ cstr " <|> " <+: rest) :
    ¬ cstr " <|> " <+: x :: (f ++ rest) := by
  rw [sep_bytes] at hrest ⊢
  rw [bar_bytes] at h
  have h2 : ¬ [60, 124, 62] <+: f := fun e => h (List.infix_cons e.isInfix)
  intro hp
  rcases f with _ | ⟨y, _ | ⟨z, _ | ⟨w, f2⟩⟩⟩
  · rcases hrest with e | e
    · subst e; simp at hp
    · obtain ⟨t, rfl⟩ := e
      simp at hp
  · rcases hrest with e | e
    · subst e; simp at hp
    · obtain ⟨t, rfl⟩ := e
      simp at hp
  · rcases hrest with e | e
    · subst e; simp at hp
    · obtain ⟨t, rfl⟩ := e
      simp at hp
  · simp only [List.cons_append, List.cons_prefix_cons] at hp
    obtain ⟨-, rfl, rfl, rfl, -⟩ := hp
    apply h2
    exact ⟨f2, rfl⟩

theorem split_scan_field (f : CStr) :
    ∀ (rest cur : CStr), ¬ cstr "<|>" <:+: f → (rest = [] ∨ cstr " <|> " <+: rest) →
      split_scan (cstr " <|> ") (f ++ rest) 0 cur
        = split_scan (cstr " <|> ") rest 0 (cur ++ f) := by
  induction f with
  | nil => intro rest cur _ _; simp
  | cons x f ih =>
    intro rest cur h hrest
    have hno := sep_not_at_field x f rest h hrest
    rw [List.cons_append, split_scan, if_neg hno, ih rest (cur ++ [x]) (bar_free_tail x f h) hrest]
    simp

theorem split_scan_sep (rest cur : CStr) :
    split_scan (cstr " <|> ") (cstr " <|> " ++ rest) 0 cur
      = cur :: split_scan (cstr " <|> ") rest 0 [] := by
  have hp : cstr " <|> " <+: cstr " <|> " ++ rest := List.prefix_append _ _
  rw [sep_bytes] at hp ⊢
  simp only [List.cons_append, List.nil_append] at hp ⊢
  rw [split_scan, if_pos hp]
  simp [split_scan]

/-- Splitting a join of fields without `<|>` gives the fields back. -/
theorem split_scan_join (fs : List CStr) :
    ∀ (f cur : CStr), (∀ g ∈ f :: fs, ¬ cstr "<|>" <:+: g) →
      split_scan (cstr " <|> ") (f ++ (fs.map (fun g => cstr " <|> " ++ g)).flatten) 0 cur
        = (cur ++ f) :: fs := by
  induction fs with
  | nil =>
    intro f cur h
    rw [List.map_nil, List.flatten_nil,
      split_scan_field f [] cur (h f (List.mem_cons_self _ _)) (Or.inl rfl)]
    rfl
  | cons g gs ih =>
    intro f cur h
    rw [List.map_cons, List.flatten_cons, List.append_assoc,
      split_scan_field f _ cur (h f (List.mem_cons_self _ _))
        (Or.inr (List.prefix_append _ _)),
      split_scan_sep, ih g [] (fun k hk => h k (List.mem_cons_of_mem _ hk))]
    rfl

theorem intercalate_cons (sep f : CStr) (fs : List CStr) :
    List.intercalate sep (f :: fs) = f ++ (fs.map (fun g => sep ++ g)).flatten := by
  induction fs generalizing f with
  | nil => simp [List.intercalate]
  | cons g gs ih =>
    have := ih g
    simp only [List.intercalate, List.intersperse_cons_cons, List.flatten_cons,
      List.map_cons] at this ⊢
    rw [this, List.append_assoc]

theorem split_fields_intercalate (f : CStr) (fs : List CStr)
    (h : ∀ g ∈ f :: fs, ¬ cstr "<|>" <:+: g) :
    split_fields (cstr " <|> ") (List.intercalate (cstr " <|> ") (f :: fs)) = f :: fs := by
  unfold split_fields
  rw [intercalate_cons, split_scan_join fs f [] h]
  rfl

theorem tag_rewrite_bar_start (l : CStr) (h : cstr "<|>" <+: tag_rewrite l) :
    cstr "<|>" <+: l := by
  rw [bar_bytes] at h ⊢
  have key : ∀ x : Nat, (if x = 10 then 59 else x) = 60 ∨ (if x = 10 then 59 else x) = 124
      ∨ (if x = 10 then 59 else x) = 62 → (if x = 10 then 59 else x) = x := by
    intro x hx
    split at hx
    · omega
    · split <;> omega
  rcases l with _ | ⟨x, _ | ⟨y, _ | ⟨z, l2⟩⟩⟩
  · simp [tag_rewrite] at h
  · simp [tag_rewrite] at h
  · simp [tag_rewrite] at h
  · simp only [tag_rewrite, List.map_cons, List.cons_prefix_cons] at h ⊢
    obtain ⟨h1, h2, h3, -⟩ := h
    have e1 := key x (Or.inl h1.symm)
    have e2 := key y (Or.inr (Or.inl h2.symm))
    have e3 := key z (Or.inr (Or.inr h3.symm))
    rw [e1] at h1
    rw [e2] at h2
    rw [e3] at h3
    exact ⟨h1, h2, h3, List.nil_prefix⟩

theorem tag_rewrite_bar_free (l : CStr) (h : ¬ cstr "<|>" <:+: l) :
    ¬ cstr "<|>" <:+: tag_rewrite l := by
  induction l with
  | nil => simpa [tag_rewrite] using h
  | cons x l ih =>
    intro h2
    have hx : tag_rewrite (x :: l) = (if x = 10 then 59 else x) :: tag_rewrite l := rfl
    rw [hx, List.infix_cons_iff] at h2
    rcases h2 with h2 | h2
    · rw [← hx] at h2
      exact h (tag_rewrite_bar_start _ h2).isInfix
    · exact ih (fun e => h (List.infix_cons e)) h2

/-- C7 (as amended). For a record with every field present, CVE, BID, xref and tag
non-empty, no `summary=` in the tag, no line-break in name, copyright or summary,
and no `<|>` in any field value (category string included), `send_plug_info` sends
a line whose text before the final newline splits at ` <|> ` into exactly the
eleven field values in their order, the tag with `'\n'` rewritten to `';'`. -/
theorem send_plug_info_round_trip (categories : List CStr) (ACT_FIRST : Int)
    (cache : CStr → Option nvti) (plugins : arglist) (f : PlugFields)
    (hr : cache plugins.name = some f.to_nvti)
    (hnl : 10 ∉ f.name ∧ 10 ∉ f.copyright ∧ 10 ∉ f.summary)
    (hne : f.cve ≠ [] ∧ f.bid ≠ [] ∧ f.xref ≠ [] ∧ f.tag ≠ [])
    (hsum : ¬ cstr "summary=" <:+: f.tag)
    (hbar : ∀ v ∈ f.values categories ACT_FIRST, ¬ cstr "<|>" <:+: v)
    (hcat : is_table categories) (hj : is_int f.category) :
    ∃ line, send_plug_info categories ACT_FIRST cache plugins = .ok (line ++ cstr "\n") ∧
      split_fields (cstr " <|> ") line = f.values categories ACT_FIRST := by
  have hs : effective_summary f.to_nvti = some f.summary := by
    simp [effective_summary, PlugFields.to_nvti, hsum]
  have hline := send_plug_info_line categories ACT_FIRST cache plugins f.to_nvti
    f.name f.copyright f.summary f.family hr rfl rfl hs rfl hnl hcat hj
  obtain ⟨h1, h2, h3, h4⟩ := hne
  have e1 : field_or f.to_nvti.cve (cstr "NOCVE") = f.cve := by
    cases hv : f.cve with
    | nil => exact absurd hv h1
    | cons c cs => simp [PlugFields.to_nvti, field_or, hv]
  have e2 : field_or f.to_nvti.bid (cstr "NOBID") = f.bid := by
    cases hv : f.bid with
    | nil => exact absurd hv h2
    | cons c cs => simp [PlugFields.to_nvti, field_or, hv]
  have e3 : field_or f.to_nvti.xref (cstr "NOXREF") = f.xref := by
    cases hv : f.xref with
    | nil => exact absurd hv h3
    | cons c cs => simp [PlugFields.to_nvti, field_or, hv]
  have e4 : tag_field f.to_nvti.tag = f.tag.map (fun b => if b = 10 then 59 else b) := by
    cases hv : f.tag with
    | nil => exact absurd hv h4
    | cons c cs => simp [PlugFields.to_nvti, tag_field, hv]
  have e5 : f.to_nvti.version.getD (cstr "?") = f.version := rfl
  have e6 : f.to_nvti.oid = f.oid := rfl
  have e7 : f.to_nvti.category = f.category := rfl
  rw [e1, e2, e3, e4, e5, e6, e7] at hline
  refine ⟨_, hline, ?_⟩
  exact split_fields_intercalate _ _ hbar

/-- C7, witness: the sample record with every field present. -/
theorem send_plug_info_round_trip_witness :
    ∃ line, send_plug_info sample_categories 0 (fun _ => some sample_fields.to_nvti)
        ⟨cstr "1.2", 0⟩ = .ok (line ++ cstr "\n") ∧
      split_fields (cstr " <|> ") line
        = [cstr "1.2", cstr "nm", cstr "init", cstr "cp", cstr "sm", cstr "fam",
            cstr "1.0", cstr "CVE-1", cstr "7", cstr "x", cstr "a=b;c=d"] :=
  send_plug_info_round_trip sample_categories 0 (fun _ => some sample_fields.to_nvti)
    ⟨cstr "1.2", 0⟩ sample_fields rfl (by decide) (by decide) (by decide) (by decide)
    ⟨by decide, by decide⟩ ⟨by decide, by decide⟩

/-- C7, counterexample: with `summary=` in the tag the fifth field read back is
`NOSUMMARY` and not the summary of the record; with ` <|> ` in the name twelve
fields are read back. Both records are complete and hold no line-break in name,
copyright or summary. -/
theorem send_plug_info_round_trip_counterexample :
    (send_plug_info sample_categories 0
        (fun _ => some { sample_fields with tag := cstr "summary=s" }.to_nvti)
        ⟨cstr "1.2", 0⟩
      = .ok (cstr
          "1.2 <|> nm <|> init <|> cp <|> NOSUMMARY <|> fam <|> 1.0 <|> CVE-1 <|> 7 <|> x <|> summary=s" ++ cstr "\n") ∧
      split_fields (cstr " <|> ") (cstr
          "1.2 <|> nm <|> init <|> cp <|> NOSUMMARY <|> fam <|> 1.0 <|> CVE-1 <|> 7 <|> x <|> summary=s")
        ≠ { sample_fields with tag := cstr "summary=s" }.values sample_categories 0) ∧
    (send_plug_info sample_categories 0
        (fun _ => some { sample_fields with name := cstr "a <|> b" }.to_nvti)
        ⟨cstr "1.2", 0⟩
      = .ok (cstr
          "1.2 <|> a <|> b <|> init <|> cp <|> sm <|> fam <|> 1.0 <|> CVE-1 <|> 7 <|> x <|> a=b;c=d" ++ cstr "\n") ∧
      (split_fields (cstr " <|> ") (cstr
          "1.2 <|> a <|> b <|> init <|> cp <|> sm <|> fam <|> 1.0 <|> CVE-1 <|> 7 <|> x <|> a=b;c=d")).length
        = 12) := by
  decide

/-! ## The lookup on any array -/

/-- On any array, sorted or not, the recursion on a range `start ≤ end ≤ n` returns
within `end - start + 1` steps, reads inside the array only, and a record it
returns is in the array and has the name asked for. -/
theorem get_plug_any {α : Type} (name : α → CStr) (array : List α) (oid : CStr) :
    ∀ (fuel start end_ : Nat), start ≤ end_ → end_ ≤ array.length → end_ - start < fuel →
      ∃ res, _get_plug_by_oid name array oid fuel start end_ array.length = .ok res ∧
        (∀ fuel2, end_ - start < fuel2 →
          _get_plug_by_oid name array oid fuel2 start end_ array.length = .ok res) ∧
        ∀ p, res = some p → p ∈ array ∧ name p = oid := by
  intro fuel
  induction fuel with
  | zero => intro start end_ _ _ h; omega
  | succ fuel ih =>
    intro start end_ hse hen hfuel
    by_cases h1 : start ≥ array.length
    · refine ⟨none, ?_, ?_, ?_⟩
      · unfold _get_plug_by_oid; rw [if_pos h1]
      · intro fuel2 hf2
        obtain ⟨k, rfl⟩ : ∃ k, fuel2 = k + 1 := ⟨fuel2 - 1, by omega⟩
        unfold _get_plug_by_oid; rw [if_pos h1]
      · intro p hp; cases hp
    · have hstart : start < array.length := by omega
      by_cases h2 : start = end_
      · by_cases h3 : strcmp (name array[start]) oid = 0
        · refine ⟨some array[start], ?_, ?_, ?_⟩
          · unfold _get_plug_by_oid
            rw [if_neg h1, if_pos h2, List.getElem?_eq_getElem hstart]
            simp only [h3, if_true]
          · intro fuel2 hf2
            obtain ⟨k, rfl⟩ : ∃ k, fuel2 = k + 1 := ⟨fuel2 - 1, by omega⟩
            unfold _get_plug_by_oid
            rw [if_neg h1, if_pos h2, List.getElem?_eq_getElem hstart]
            simp only [h3, if_true]
          · intro p hp
            cases hp
            exact ⟨List.getElem_mem _, (strcmp_eq_zero_iff _ _).mp h3⟩
        · refine ⟨none, ?_, ?_, ?_⟩
          · unfold _get_plug_by_oid
            rw [if_neg h1, if_pos h2, List.getElem?_eq_getElem hstart]
            simp only [h3, if_false]
          · intro fuel2 hf2
            obtain ⟨k, rfl⟩ : ∃ k, fuel2 = k + 1 := ⟨fuel2 - 1, by omega⟩
            unfold _get_plug_by_oid
            rw [if_neg h1, if_pos h2, List.getElem?_eq_getElem hstart]
            simp only [h3, if_false]
          · intro p hp; cases hp
      · have hmid : (start + end_) / 2 < array.length := by omega
        by_cases h3 : strcmp (name array[(start + end_) / 2]) oid > 0
        · obtain ⟨res, hr1, hr2, hr3⟩ := ih start ((start + end_) / 2) (by omega) (by omega)
            (by omega)
          refine ⟨res, ?_, ?_, hr3⟩
          · unfold _get_plug_by_oid
            rw [if_neg h1, if_neg h2]
            simp only [List.getElem?_eq_getElem hmid, if_pos h3]
            exact hr1
          · intro fuel2 hf2
            obtain ⟨k, rfl⟩ : ∃ k, fuel2 = k + 1 := ⟨fuel2 - 1, by omega⟩
            unfold _get_plug_by_oid
            rw [if_neg h1, if_neg h2]
            simp only [List.getElem?_eq_getElem hmid, if_pos h3]
            exact hr2 k (by omega)
        · by_cases h4 : strcmp (name array[(start + end_) / 2]) oid < 0
          · obtain ⟨res, hr1, hr2, hr3⟩ := ih ((start + end_) / 2 + 1) end_ (by omega) hen
              (by omega)
            refine ⟨res, ?_, ?_, hr3⟩
            · unfold _get_plug_by_oid
              rw [if_neg h1, if_neg h2]
              simp only [List.getElem?_eq_getElem hmid, if_neg h3, if_pos h4]
              exact hr1
            · intro fuel2 hf2
              obtain ⟨k, rfl⟩ : ∃ k, fuel2 = k + 1 := ⟨fuel2 - 1, by omega⟩
              unfold _get_plug_by_oid
              rw [if_neg h1, if_neg h2]
              simp only [List.getElem?_eq_getElem hmid, if_neg h3, if_pos h4]
              exact hr2 k (by omega)
          · have h5 : strcmp (name array[(start + end_) / 2]) oid = 0 := by omega
            refine ⟨some array[(start + end_) / 2], ?_, ?_, ?_⟩
            · unfold _get_plug_by_oid
              rw [if_neg h1, if_neg h2]
              simp only [List.getElem?_eq_getElem hmid, if_neg h3, if_neg h4]
            · intro fuel2 hf2
              obtain ⟨k, rfl⟩ : ∃ k, fuel2 = k + 1 := ⟨fuel2 - 1, by omega⟩
              unfold _get_plug_by_oid
              rw [if_neg h1, if_neg h2]
              simp only [List.getElem?_eq_getElem hmid, if_neg h3, if_neg h4]
            · intro p hp
              cases hp
              exact ⟨List.getElem_mem _, (strcmp_eq_zero_iff _ _).mp h5⟩

theorem get_plug_by_oid_any {α : Type} (name : α → CStr) (array : List α) (oid : CStr) :
    ∃ res, get_plug_by_oid name array oid array.length = .ok res ∧
      ∀ p, res = some p → p ∈ array ∧ name p = oid := by
  obtain ⟨res, h1, _, h3⟩ := get_plug_any name array oid (array.length + 1) 0 array.length
    (Nat.zero_le _) (Nat.le_refl _) (by omega)
  exact ⟨res, h1, h3⟩

/-! ## Facts about the loop of `comm_send_nvt_info` -/

theorem strstr_bound (h n : CStr) (k : Nat) (e : strstr h n = some k) :
    k + n.length ≤ h.length := by
  induction h generalizing k with
  | nil =>
    unfold strstr at e
    by_cases hn : n = []
    · simp [hn] at e; simp [hn, ← e]
    · simp [hn] at e
  | cons b bs ih =>
    unfold strstr at e
    by_cases hp : n <+: b :: bs
    · simp [hp] at e
      rw [← e]
      simpa using hp.length_le
    · simp only [hp, if_false, Option.map_eq_some'] at e
      obtain ⟨j, hj, rfl⟩ := e
      have := ih j hj
      simp only [List.length_cons]
      omega

theorem split_scan_skip (sep : CStr) (l : CStr) :
    ∀ (k : Nat) (cur : CStr), split_scan sep l k cur = split_scan sep (l.drop k) 0 cur := by
  induction l with
  | nil => intro k cur; cases k <;> simp [split_scan]
  | cons c cs ih =>
    intro k cur
    cases k with
    | zero => rfl
    | succ k => rw [split_scan, ih k cur]; rfl

/-- The first field ends where `strstr` finds the separator. -/
theorem split_scan_strstr (buf : CStr) :
    ∀ cur : CStr, split_scan (cstr " <|> ") buf 0 cur
      = match strstr buf (cstr " <|> ") with
        | none => [cur ++ buf]
        | some k => (cur ++ buf.take k)
            :: split_scan (cstr " <|> ") (buf.drop (k + 5)) 0 [] := by
  have hlen : (cstr " <|> ").length - 1 = 4 := by decide
  have hne : cstr " <|> " ≠ [] := by decide
  induction buf with
  | nil => intro cur; simp [split_scan, strstr, hne]
  | cons c cs ih =>
    intro cur
    have hL : split_scan (cstr " <|> ") (c :: cs) 0 cur
        = if cstr " <|> " <+: c :: cs
          then cur :: split_scan (cstr " <|> ") cs ((cstr " <|> ").length - 1) []
          else split_scan (cstr " <|> ") cs 0 (cur ++ [c]) := by
      rw [split_scan]
    have hS : strstr (c :: cs) (cstr " <|> ")
        = if cstr " <|> " <+: c :: cs then some 0
          else (strstr cs (cstr " <|> ")).map (· + 1) := by
      rw [strstr]
    rw [hL, hS]
    by_cases hp : cstr " <|> " <+: c :: cs
    · rw [if_pos hp, if_pos hp, hlen, split_scan_skip]
      simp
    · rw [if_neg hp, if_neg hp, ih (cur ++ [c])]
      cases strstr cs (cstr " <|> ") with
      | none => simp
      | some k => simp

theorem split_scan_ne_nil (sep buf : CStr) (k : Nat) (cur : CStr) :
    split_scan sep buf k cur ≠ [] := by
  induction buf generalizing k cur with
  | nil => simp [split_scan]
  | cons c cs ih =>
    cases k with
    | succ k => rw [split_scan]; exact ih k cur
    | zero =>
      rw [split_scan]
      split
      · simp
      · exact ih 0 _

/-- A line with at least three fields: where `strstr` finds the first two
separators. -/
theorem three_fields_strstr (buf f1 f2 f3 : CStr) (more : List CStr)
    (hf : split_fields (cstr " <|> ") buf = f1 :: f2 :: f3 :: more) :
    strstr buf (cstr " <|> ") = some f1.length ∧
    strstr (buf.drop (f1.length + 5)) (cstr " <|> ") = some f2.length := by
  unfold split_fields at hf
  rw [split_scan_strstr] at hf
  cases h1 : strstr buf (cstr " <|> ") with
  | none => rw [h1] at hf; simp at hf
  | some k =>
    rw [h1] at hf
    simp only [List.nil_append, List.cons.injEq] at hf
    obtain ⟨e1, hf2⟩ := hf
    have hk := strstr_bound _ _ _ h1
    have hk1 : f1.length = k := by
      rw [← e1, List.length_take]
      omega
    rw [hk1]
    refine ⟨rfl, ?_⟩
    rw [split_scan_strstr] at hf2
    cases h2 : strstr (buf.drop (k + 5)) (cstr " <|> ") with
    | none => rw [h2] at hf2; simp at hf2
    | some k2 =>
      rw [h2] at hf2
      simp only [List.nil_append, List.cons.injEq] at hf2
      obtain ⟨e2, -⟩ := hf2
      have hk2 := strstr_bound _ _ _ h2
      have : f2.length = k2 := by
        rw [← e2, List.length_take]
        omega
      rw [this]

/-- A line with fewer than three fields: `strstr` misses the first or the
second separator. -/
theorem few_fields_strstr (buf : CStr)
    (hf : (split_fields (cstr " <|> ") buf).length < 3) :
    strstr buf (cstr " <|> ") = none ∨
    ∃ t, strstr buf (cstr " <|> ") = some t ∧
      strstr (buf.drop (t + 5)) (cstr " <|> ") = none := by
  unfold split_fields at hf
  rw [split_scan_strstr] at hf
  cases h1 : strstr buf (cstr " <|> ") with
  | none => exact Or.inl rfl
  | some k =>
    refine Or.inr ⟨k, rfl, ?_⟩
    rw [h1] at hf
    simp only [List.length_cons] at hf
    rw [split_scan_strstr] at hf
    cases h2 : strstr (buf.drop (k + 5)) (cstr " <|> ") with
    | none => rfl
    | some k2 =>
      rw [h2] at hf
      simp only [List.length_cons] at hf
      have := List.length_pos.mpr
        (split_scan_ne_nil (cstr " <|> ") ((buf.drop (k + 5)).drop (k2 + 5)) 0 [])
      omega

theorem strchr_first (oid rest : CStr) (c : Nat) (h : c ∉ oid) :
    strchr (oid ++ c :: rest) c = some oid.length := by
  induction oid with
  | nil => simp [strchr]
  | cons b bs ih =>
    have hb : b ≠ c := fun e => h (e ▸ List.mem_cons_self _ _)
    have := ih (fun e => h (List.mem_cons_of_mem _ e))
    simp [strchr, hb, this]

theorem strchr_none (s : CStr) (c : Nat) (h : c ∉ s) : strchr s c = none := by
  have := (strchr_isSome_iff s c).not.mpr h
  simpa using this

/-- The tokens `COMPLETE_LIST` and `PLUGIN_INFO` as the loop body tests them. -/
theorem nvt_info_step_tokens (buf : CStr) :
    (cstr "COMPLETE_LIST" <:+: buf → nvt_info_step buf = .send_pluginlist) ∧
    (¬ cstr "COMPLETE_LIST" <:+: buf → ¬ cstr "PLUGIN_INFO" <:+: buf →
      nvt_info_step buf = .leave) ∧
    (¬ cstr "COMPLETE_LIST" <:+: buf → cstr "PLUGIN_INFO" <:+: buf →
      nvt_info_step buf
        = match strstr buf (cstr " <|> ") with
          | none => .next
          | some t =>
            match strstr (buf.drop (t + 5)) (cstr " <|> ") with
            | none => .next
            | some t2 =>
              match strchr ((buf.drop (t + 5)).drop (t2 + 5)) 32 with
              | none => .next
              | some t3 => .send_infos (((buf.drop (t + 5)).drop (t2 + 5)).take t3)) := by
  refine ⟨?_, ?_, ?_⟩
  · intro h
    unfold nvt_info_step
    rw [if_pos ((strstr_isSome_iff _ _).mpr h)]
  · intro h1 h2
    unfold nvt_info_step
    rw [if_neg (fun e => h1 ((strstr_isSome_iff _ _).mp e)),
      if_neg (fun e => h2 ((strstr_isSome_iff _ _).mp e))]
  · intro h1 h2
    unfold nvt_info_step
    rw [if_neg (fun e => h1 ((strstr_isSome_iff _ _).mp e)),
      if_pos ((strstr_isSome_iff _ _).mpr h2)]

/-! ## Category index (`send_plug_info`) -/

/-- C11. For every `int` category `j`, a category table that is a C array and a
first category `ACT_FIRST` that is not negative, the index that `send_plug_info`
uses lies inside the table and the entry is read without fault; a category with
`ACT_FIRST <= j < CAT_MAX` keeps its own index and every other one gets the last
index `CAT_MAX - 1`. -/
theorem cat_index_in_table (categories : List CStr) (ACT_FIRST j : Int)
    (hcat : is_table categories) (hj : is_int j) (hfirst : 0 ≤ ACT_FIRST) :
    (0 ≤ cat_index categories.length ACT_FIRST j ∧
      cat_index categories.length ACT_FIRST j < categories.length) ∧
    categories[(cat_index categories.length ACT_FIRST j).toNat]?
      = some (category_string categories ACT_FIRST j) ∧
    (ACT_FIRST ≤ j ∧ j < categories.length →
      cat_index categories.length ACT_FIRST j = j) ∧
    (¬ (ACT_FIRST ≤ j ∧ j < categories.length) →
      cat_index categories.length ACT_FIRST j = categories.length - 1) := by
  refine ⟨cat_index_range categories ACT_FIRST j hcat hj,
    (category_lookup categories ACT_FIRST j hcat hj).2.1, ?_, ?_⟩
  · intro h
    obtain ⟨hlo, hhi⟩ := hj
    unfold cat_index to_size_t
    norm_num at hlo hhi ⊢
    omega
  · intro h
    obtain ⟨hlo, hhi⟩ := hj
    obtain ⟨hne, hlen⟩ := hcat
    unfold cat_index to_size_t
    norm_num at hlo hhi hlen ⊢
    have hlen2 : (categories.length : Int) < 2147483648 := by exact_mod_cast hlen
    omega

/-- C11, witness: the categories -1, 0 and 3 in a table of two entries. -/
theorem cat_index_in_table_witness :
    cat_index 2 0 (-1) = 1 ∧ cat_index 2 0 0 = 0 ∧ cat_index 2 0 3 = 1 :=
  ⟨((cat_index_in_table sample_categories 0 (-1) ⟨by decide, by decide⟩
      ⟨by decide, by decide⟩ (by decide)).2.2.2 (by decide)),
    ((cat_index_in_table sample_categories 0 0 ⟨by decide, by decide⟩
      ⟨by decide, by decide⟩ (by decide)).2.2.1 (by decide)),
    ((cat_index_in_table sample_categories 0 3 ⟨by decide, by decide⟩
      ⟨by decide, by decide⟩ (by decide)).2.2.2 (by decide))⟩

/-! ## Selection lists without a matching token -/

theorem strtol_value_blank (s : CStr) (h : is_blank s) : strtol_value s = 0 := by
  induction s with
  | nil => rfl
  | cons c cs ih =>
    have hc : isspace c = true := h c (List.mem_cons_self _ _)
    unfold strtol_value
    rw [if_pos hc]
    exact ih (fun x hx => h x (List.mem_cons_of_mem _ hx))

theorem atoi_blank (s : CStr) (h : is_blank s) : atoi s = 0 := by
  unfold atoi strtol
  rw [strtol_value_blank s h]
  decide

theorem strtok_scan_no_delim (delim : Nat) (s : CStr) (h : ∀ c ∈ s, c ≠ delim) :
    ∀ cur : CStr, strtok_scan delim s cur = if cur ++ s = [] then [] else [cur ++ s] := by
  induction s with
  | nil => intro cur; simp [strtok_scan]
  | cons c cs ih =>
    intro cur
    have hc : c ≠ delim := h c (List.mem_cons_self _ _)
    unfold strtok_scan
    rw [if_neg hc, ih (fun x hx => h x (List.mem_cons_of_mem _ hx))]
    simp

theorem strtok_all_blank (s : CStr) (h : is_blank s) :
    strtok_all s 59 = if s = [] then [] else [s] := by
  unfold strtok_all
  rw [strtok_scan_no_delim 59 s]
  · simp
  · intro c hc e
    have := h c hc
    rw [e] at this
    exact absurd this (by decide)

theorem enable_selected_unmatched (array : List Nat) (toks : List CStr)
    (plugins : List arglist) (hm : ∀ p ∈ array, p < plugins.length)
    (hl : array.length = plugins.length)
    (hno : ∀ t ∈ toks, ∀ a ∈ plugins, a.name ≠ t) :
    enable_selected array plugins.length toks plugins = .ok plugins := by
  induction toks with
  | nil => rfl
  | cons oid rest ih =>
    unfold enable_selected
    obtain ⟨res, hres, hp⟩ := get_plug_by_oid_any (node_name plugins) array oid
    rw [hl] at hres
    rw [hres]
    cases res with
    | none =>
      simp only
      exact ih (fun t ht => hno t (List.mem_cons_of_mem _ ht))
    | some p =>
      exfalso
      obtain ⟨hmem, hname⟩ := hp p rfl
      have hlt := hm p hmem
      rw [node_name_lt plugins p hlt] at hname
      exact hno oid (List.mem_cons_self _ _) _ (List.getElem_mem _) hname

theorem qsort_range_view (n : Nat) (cmp : Nat → Nat → Int) :
    (∀ p ∈ qsort (List.range n) cmp, p < n) ∧ (qsort (List.range n) cmp).length = n := by
  unfold qsort
  have hperm := List.perm_insertionSort (fun a b => cmp a b ≤ 0) (List.range n)
  constructor
  · intro p hp
    exact List.mem_range.mp (hperm.mem_iff.mp hp)
  · rw [hperm.length_eq, List.length_range]

/-- With a selection list that is not the all-enable case and none of whose
tokens is the OID of a record, every record ends disabled. -/
theorem comm_setup_plugins_unmatched (list : CStr) (plugins : List arglist)
    (hl : atoi list ≠ -1)
    (hno : ∀ t ∈ strtok_all list 59, ∀ a ∈ plugins, a.name ≠ t) :
    comm_setup_plugins (some list) (some plugins)
      = .ok (some (plugins.map (fun p => plug_set_launch p LAUNCH_DISABLED))) := by
  unfold comm_setup_plugins
  simp only [Option.getD_some, if_neg hl]
  by_cases h0 : plugins.length = 0
  · have : plugins = [] := List.length_eq_zero.mp h0
    subst this
    simp
  · have hdis : ¬ (plugins.length = 0 ∨ LAUNCH_DISABLED ≠ 0) := by
      simp [h0, LAUNCH_DISABLED]
    rw [if_neg hdis]
    have hlen : (plugins.map (fun p => plug_set_launch p LAUNCH_DISABLED)).length
        = plugins.length := by simp
    obtain ⟨hv1, hv2⟩ := qsort_range_view plugins.length
      (qsort_cmp (node_name (plugins.map (fun p => plug_set_launch p LAUNCH_DISABLED))))
    have hsel := enable_selected_unmatched _ (strtok_all list 59)
      (plugins.map (fun p => plug_set_launch p LAUNCH_DISABLED))
      (by rw [hlen]; exact hv1) (by rw [hlen]; exact hv2)
      (by
        intro t ht a ha
        obtain ⟨b, hb, rfl⟩ := List.mem_map.mp ha
        exact hno t ht b hb)
    rw [hlen] at hsel
    rw [hsel]

/-! ## Fail closed (`comm_setup_plugins`) -/

/-- A selection list of white space only that is not itself the OID of a record
leaves every record disabled. -/
theorem comm_setup_plugins_blank_list (list : CStr) (plugins : List arglist)
    (hws : is_blank list) (hoid : ∀ p ∈ plugins, p.name ≠ list) :
    comm_setup_plugins (some list) (some plugins)
      = .ok (some (plugins.map (fun p => plug_set_launch p LAUNCH_DISABLED))) := by
  apply comm_setup_plugins_unmatched
  · rw [atoi_blank list hws]; decide
  · intro t ht a ha
    rw [strtok_all_blank list hws] at ht
    by_cases e : list = []
    · simp [e] at ht
    · simp [e] at ht
      rw [ht]
      exact hoid a ha

theorem oid_not_blank (s : CStr) (ho : is_oid s) : ¬ is_blank s := by
  obtain ⟨hne, hd⟩ := ho
  intro hb
  cases s with
  | nil => exact hne rfl
  | cons c cs =>
    have h1 := hb c (List.mem_cons_self _ _)
    have h2 := hd c (List.mem_cons_self _ _)
    simp only [isspace, g_ascii_isdigit, Bool.or_eq_true, Bool.and_eq_true,
      decide_eq_true_eq] at h1 h2
    omega

/-- C12. Fail closed: for every plugin list whose OIDs are dotted numeric strings
and every selection list that is empty or consists only of white space,
`comm_setup_plugins` returns and leaves every record with its OID and in launch
state `LAUNCH_DISABLED`; no record is in `LAUNCH_RUN`. -/
theorem comm_setup_plugins_fail_closed (list : CStr) (plugins : List arglist)
    (hws : is_blank list) (hoid : ∀ p ∈ plugins, is_oid p.name) :
    comm_setup_plugins (some list) (some plugins)
      = .ok (some (plugins.map (fun p => plug_set_launch p LAUNCH_DISABLED))) := by
  apply comm_setup_plugins_blank_list list plugins hws
  intro p hp e
  exact oid_not_blank p.name (hoid p hp) (e ▸ hws)

/-- C12, witness: a list of two spaces on the OIDs `1.1` and `1.2`. -/
theorem comm_setup_plugins_fail_closed_witness :
    comm_setup_plugins (some (cstr "  ")) (some [⟨cstr "1.1", 1⟩, ⟨cstr "1.2", 5⟩])
      = .ok (some [⟨cstr "1.1", LAUNCH_DISABLED⟩, ⟨cstr "1.2", LAUNCH_DISABLED⟩]) :=
  comm_setup_plugins_fail_closed (cstr "  ") [⟨cstr "1.1", 1⟩, ⟨cstr "1.2", 5⟩]
    (by decide) (by decide)

/-! ## NVT information (`comm_send_nvt_info`) -/

/-- C13, the code at the failing input: when the feed version command writes
nothing, `nvt_feed_version` returns its failure indicator 1 and leaves the zeroed
buffer, the empty version passes `is_valid_feed_version`, and the announce line
carries an empty version field instead of `NOVERSION`. -/
theorem comm_send_nvt_info_failed_provider :
    nvt_feed_version (cstr "") [] 32 = (1, []) ∧
    is_valid_feed_version (some []) = 1 ∧
    comm_send_nvt_info sample_categories 0 (fun _ => none) none (cstr "") []
      = .ok (cstr "SERVER <|> NVT_INFO <|>  <|> SERVER\n") ∧
    comm_send_nvt_info sample_categories 0 (fun _ => none) none (cstr "") []
      ≠ .ok (cstr "SERVER <|> NVT_INFO <|> NOVERSION <|> SERVER\n") := by
  decide

theorem is_valid_feed_version_loop_values (s : CStr) :
    is_valid_feed_version_loop s = 0 ∨ is_valid_feed_version_loop s = 1 := by
  induction s with
  | nil => right; rfl
  | cons c cs ih =>
    unfold is_valid_feed_version_loop
    split
    · left; rfl
    · exact ih

/-- The version field of the announce line: the content of the buffer when all
its bytes are digits, `NOVERSION` otherwise. -/
theorem nvt_info_announce_field (feed_version : CStr) :
    nvt_info_announce feed_version
      = cstr "SERVER <|> NVT_INFO <|> "
        ++ (if ∀ c ∈ feed_version, g_ascii_isdigit c = true then feed_version
            else cstr "NOVERSION")
        ++ cstr " <|> SERVER\n" := by
  unfold nvt_info_announce
  have hv0 : is_valid_feed_version (some feed_version)
      = is_valid_feed_version_loop feed_version := rfl
  rw [hv0]
  have h := is_valid_feed_version_loop_iff feed_version
  by_cases hd : ∀ c ∈ feed_version, g_ascii_isdigit c = true
  · rw [if_pos hd, if_pos]
    rw [h.mpr hd]; decide
  · rw [if_neg hd, if_neg]
    intro hv
    rcases is_valid_feed_version_loop_values feed_version with e | e
    · exact hv e
    · exact hd (h.mp e)

/-- C14 (as amended). For a line that contains `PLUGIN_INFO`, does not contain
`COMPLETE_LIST` and has at least three ` <|> `-delimited fields: when the text
after the second ` <|> ` holds a space, the loop body calls `plugin_send_infos`
once, with the text up to the first space as OID, and the loop goes on; when
that text holds no space, no call is made and the loop goes on. -/
theorem nvt_info_plugin_info_lookup (buf f1 f2 f3 : CStr) (more : List CStr)
    (hpi : cstr "PLUGIN_INFO" <:+: buf) (hcl : ¬ cstr "COMPLETE_LIST" <:+: buf)
    (hf : split_fields (cstr " <|> ") buf = f1 :: f2 :: f3 :: more) :
    (∀ oid rest, buf.drop (f1.length + 5 + f2.length + 5) = oid ++ 32 :: rest →
      32 ∉ oid →
      nvt_info_step buf = .send_infos oid ∧
      ∀ categories ACT_FIRST cache global_plugins lines sent,
        comm_send_nvt_info_loop categories ACT_FIRST cache global_plugins
            (buf :: lines) sent
          = match plugin_send_infos categories ACT_FIRST cache global_plugins
              (some oid) with
            | .error e => .error e
            | .ok out =>
              comm_send_nvt_info_loop categories ACT_FIRST cache global_plugins lines
                (sent ++ out)) ∧
    (32 ∉ buf.drop (f1.length + 5 + f2.length + 5) →
      nvt_info_step buf = .next ∧
      ∀ categories ACT_FIRST cache global_plugins lines sent,
        comm_send_nvt_info_loop categories ACT_FIRST cache global_plugins
            (buf :: lines) sent
          = comm_send_nvt_info_loop categories ACT_FIRST cache global_plugins lines
              sent) := by
  obtain ⟨h1, h2⟩ := three_fields_strstr buf f1 f2 f3 more hf
  have hstep := (nvt_info_step_tokens buf).2.2 hcl hpi
  rw [h1] at hstep
  simp only [h2] at hstep
  have hdrop : (buf.drop (f1.length + 5)).drop (f2.length + 5)
      = buf.drop (f1.length + 5 + f2.length + 5) := by
    rw [List.drop_drop, Nat.add_assoc (f1.length + 5)]
  rw [hdrop] at hstep
  constructor
  · intro oid rest hs ho
    have hstep2 : nvt_info_step buf = .send_infos oid := by
      rw [hstep, hs, strchr_first oid rest 32 ho]
      simp
    refine ⟨hstep2, ?_⟩
    intro categories ACT_FIRST cache global_plugins lines sent
    rw [comm_send_nvt_info_loop, hstep2]
  · intro hs
    have hstep2 : nvt_info_step buf = .next := by
      rw [hstep, strchr_none _ 32 hs]
    refine ⟨hstep2, ?_⟩
    intro categories ACT_FIRST cache global_plugins lines sent
    rw [comm_send_nvt_info_loop, hstep2]

/-- C14, witness: the line `CLIENT <|> PLUGIN_INFO <|> 1.2.3 <|> CLIENT` looks
up `1.2.3`. -/
theorem nvt_info_plugin_info_lookup_witness :
    nvt_info_step (cstr "CLIENT <|> PLUGIN_INFO <|> 1.2.3 <|> CLIENT")
      = .send_infos (cstr "1.2.3") :=
  ((nvt_info_plugin_info_lookup (cstr "CLIENT <|> PLUGIN_INFO <|> 1.2.3 <|> CLIENT")
    (cstr "CLIENT") (cstr "PLUGIN_INFO") (cstr "1.2.3") [cstr "CLIENT"]
    (by decide) (by decide) (by decide)).1 (cstr "1.2.3") (cstr "<|> CLIENT")
    (by decide) (by decide)).1

/-- C14, counterexample: the line `CLIENT <|> PLUGIN_INFO <|> 1.2.3` contains
`PLUGIN_INFO`, not `COMPLETE_LIST`, and has three fields, yet no lookup is made:
the loop body reaches `continue` and nothing is sent for the line. -/
theorem nvt_info_no_space_counterexample :
    cstr "PLUGIN_INFO" <:+: cstr "CLIENT <|> PLUGIN_INFO <|> 1.2.3" ∧
    ¬ cstr "COMPLETE_LIST" <:+: cstr "CLIENT <|> PLUGIN_INFO <|> 1.2.3" ∧
    split_fields (cstr " <|> ") (cstr "CLIENT <|> PLUGIN_INFO <|> 1.2.3")
      = [cstr "CLIENT", cstr "PLUGIN_INFO", cstr "1.2.3"] ∧
    nvt_info_step (cstr "CLIENT <|> PLUGIN_INFO <|> 1.2.3") = .next ∧
    comm_send_nvt_info_loop sample_categories 0 (fun _ => some sample_record)
        (some [⟨cstr "1.2.3", 0⟩]) [cstr "CLIENT <|> PLUGIN_INFO <|> 1.2.3"] []
      = .ok [] := by
  decide

/-- The cases of the loop of `comm_send_nvt_info`, whatever lines follow: a line
containing `COMPLETE_LIST` makes the full listing and, when that returns, the
loop goes on; a line containing `PLUGIN_INFO` makes at most one lookup and, when
that returns, the loop goes on (with fewer than three ` <|> `-delimited fields
nothing is sent); a line containing neither token, like the empty line of a
failed read, ends the loop with no later line looked at. -/
theorem comm_send_nvt_info_loop_dispatch (categories : List CStr) (ACT_FIRST : Int)
    (cache : CStr → Option nvti) (global_plugins : Option (List arglist))
    (buf : CStr) (lines : List CStr) (sent : CStr) :
    (cstr "COMPLETE_LIST" <:+: buf →
      comm_send_nvt_info_loop categories ACT_FIRST cache global_plugins (buf :: lines) sent
        = match comm_send_pluginlist categories ACT_FIRST cache global_plugins with
          | .error e => .error e
          | .ok out =>
            comm_send_nvt_info_loop categories ACT_FIRST cache global_plugins lines
              (sent ++ out)) ∧
    (¬ cstr "COMPLETE_LIST" <:+: buf → cstr "PLUGIN_INFO" <:+: buf →
      comm_send_nvt_info_loop categories ACT_FIRST cache global_plugins (buf :: lines) sent
          = comm_send_nvt_info_loop categories ACT_FIRST cache global_plugins lines sent ∨
        ∃ oid,
          comm_send_nvt_info_loop categories ACT_FIRST cache global_plugins
              (buf :: lines) sent
            = match plugin_send_infos categories ACT_FIRST cache global_plugins
                (some oid) with
              | .error e => .error e
              | .ok out =>
                comm_send_nvt_info_loop categories ACT_FIRST cache global_plugins lines
                  (sent ++ out)) ∧
    (¬ cstr "COMPLETE_LIST" <:+: buf → cstr "PLUGIN_INFO" <:+: buf →
      (split_fields (cstr " <|> ") buf).length < 3 →
      comm_send_nvt_info_loop categories ACT_FIRST cache global_plugins (buf :: lines) sent
        = comm_send_nvt_info_loop categories ACT_FIRST cache global_plugins lines sent) ∧
    (¬ cstr "COMPLETE_LIST" <:+: buf → ¬ cstr "PLUGIN_INFO" <:+: buf →
      comm_send_nvt_info_loop categories ACT_FIRST cache global_plugins (buf :: lines) sent
        = .ok sent) ∧
    comm_send_nvt_info_loop categories ACT_FIRST cache global_plugins ([] :: lines) sent
      = .ok sent ∧
    comm_send_nvt_info_loop categories ACT_FIRST cache global_plugins [] sent
      = .ok sent := by
  obtain ⟨ht1, ht2, ht3⟩ := nvt_info_step_tokens buf
  refine ⟨?_, ?_, ?_, ?_, ?_, ?_⟩
  · intro h
    rw [comm_send_nvt_info_loop, ht1 h]
  · intro h1 h2
    have hstep := ht3 h1 h2
    cases hs : nvt_info_step buf with
    | send_pluginlist =>
      rw [hs] at hstep
      exfalso
      split at hstep
      · cases hstep
      · split at hstep
        · cases hstep
        · split at hstep <;> cases hstep
    | leave =>
      rw [hs] at hstep
      exfalso
      split at hstep
      · cases hstep
      · split at hstep
        · cases hstep
        · split at hstep <;> cases hstep
    | next =>
      left
      rw [comm_send_nvt_info_loop, hs]
    | send_infos oid =>
      right
      refine ⟨oid, ?_⟩
      rw [comm_send_nvt_info_loop, hs]
  · intro h1 h2 h3
    have hstep := ht3 h1 h2
    have hnext : nvt_info_step buf = .next := by
      rcases few_fields_strstr buf h3 with e | ⟨t, e1, e2⟩
      · rw [hstep, e]
      · rw [hstep, e1]
        simp only [e2]
    rw [comm_send_nvt_info_loop, hnext]
  · intro h1 h2
    rw [comm_send_nvt_info_loop, ht2 h1 h2]
  · have : nvt_info_step [] = .leave := by decide
    rw [comm_send_nvt_info_loop, this]
  · rw [comm_send_nvt_info_loop]

/-- C15, the code at the failing input: the looked-up record has no name, so the
`PLUGIN_INFO` line ends the loop in the fault of `send_plug_info` and the
`COMPLETE_LIST` line behind it is not served. -/
theorem comm_send_nvt_info_loop_lookup_fault :
    nvt_info_step (cstr "CLIENT <|> PLUGIN_INFO <|> 1.2 <|> CLIENT")
      = .send_infos (cstr "1.2") ∧
    comm_send_nvt_info_loop sample_categories 0
        (fun _ => some { sample_record with name := none }) (some [⟨cstr "1.2", 0⟩])
        [cstr "CLIENT <|> PLUGIN_INFO <|> 1.2 <|> CLIENT",
          cstr "CLIENT <|> COMPLETE_LIST <|> CLIENT"] []
      = .error .null_deref :=
  ⟨by decide, by decide⟩

/-! ## Command loop (`comm_wait_order`) -/

theorem comm_wait_order_repeat (e : wait_event) (rest : List wait_event)
    (h : wait_repeats e) :
    comm_wait_order (e :: rest)
      = ((comm_wait_order rest).1, e.str :: (comm_wait_order rest).2) := by
  obtain ⟨h1, h2, h3, h4⟩ := h
  rw [comm_wait_order, if_neg (by omega), if_neg h2, if_neg h3, if_neg h4]

theorem comm_wait_order_stop (e : wait_event) (rest : List wait_event)
    (h : ¬ wait_repeats e) :
    comm_wait_order (e :: rest)
      = (some (if wait_rejected e then -1 else if e.parsed = 0 then 0 else -1),
          if wait_rejected e then [] else [e.str]) := by
  unfold wait_repeats at h
  unfold wait_rejected
  rw [comm_wait_order]
  by_cases h1 : e.n < 0
  · simp [h1]
  · by_cases h2 : e.str = [] ∧ e.present = 0
    · simp [h1, h2]
    · by_cases h3 : e.parsed = 0
      · simp [h1, h2, h3]
      · by_cases h4 : e.parsed = -1
        · simp [h1, h2, h3, h4]
        · exact absurd ⟨by omega, h2, h3, h4⟩ h

/-- C16. Over any script of turns, `comm_wait_order` stops at the first turn that
does not let the loop repeat, whatever follows: a failed read (`n < 0`) or an empty
line with the peer absent gives -1 without the interpreter being called, the
interpreter result 0 gives 0 and the result -1 gives -1. Every line of a turn
before it, and the line of that turn unless it was rejected, is handed to the
interpreter exactly once, in order. A script of repeating turns only leaves the
loop reading, with every line handed over. -/
theorem comm_wait_order_first_stop (pre : List wait_event) (e : wait_event)
    (post : List wait_event) (hpre : ∀ x ∈ pre, wait_repeats x)
    (he : ¬ wait_repeats e) :
    comm_wait_order (pre ++ e :: post)
      = (some (if wait_rejected e then -1 else if e.parsed = 0 then 0 else -1),
          pre.map wait_event.str ++ if wait_rejected e then [] else [e.str]) ∧
    comm_wait_order pre = (none, pre.map wait_event.str) := by
  induction pre with
  | nil =>
    refine ⟨?_, rfl⟩
    rw [List.nil_append, comm_wait_order_stop e post he]
    rfl
  | cons x xs ih =>
    have hx := hpre x (List.mem_cons_self _ _)
    obtain ⟨ih1, ih2⟩ := ih (fun y hy => hpre y (List.mem_cons_of_mem _ hy))
    constructor
    · rw [List.cons_append, comm_wait_order_repeat x _ hx, ih1]
      rfl
    · rw [comm_wait_order_repeat x _ hx, ih2]
      rfl

/-- C16, witness: a command, an empty line with the peer present, then the run
order; the turn behind it is not reached. -/
theorem comm_wait_order_first_stop_witness :
    comm_wait_order
        [⟨5, cstr "PREFS", 1, 1⟩, ⟨0, [], 1, 1⟩, ⟨3, cstr "RUN", 1, 0⟩,
          ⟨-1, [], 0, -1⟩]
      = (some 0, [cstr "PREFS", [], cstr "RUN"]) :=
  (comm_wait_order_first_stop [⟨5, cstr "PREFS", 1, 1⟩, ⟨0, [], 1, 1⟩]
    ⟨3, cstr "RUN", 1, 0⟩ [⟨-1, [], 0, -1⟩] (by decide) (by decide)).1

/-! ## Plugin list and preferences -/

theorem comm_send_pluginlist_loop_eq (categories : List CStr) (ACT_FIRST : Int)
    (cache : CStr → Option nvti) (plugins : List arglist) :
    ∀ sent : CStr,
      comm_send_pluginlist_loop categories ACT_FIRST cache plugins sent
        = match concat_outputs (plugins.map (send_plug_info categories ACT_FIRST cache)) with
          | .error e => .error e
          | .ok body => .ok (sent ++ body) := by
  induction plugins with
  | nil => intro sent; simp [comm_send_pluginlist_loop, concat_outputs]
  | cons p ps ih =>
    intro sent
    rw [comm_send_pluginlist_loop, List.map_cons]
    cases hp : send_plug_info categories ACT_FIRST cache p with
    | error e => simp [concat_outputs]
    | ok out =>
      simp only [concat_outputs]
      rw [ih]
      cases concat_outputs (ps.map (send_plug_info categories ACT_FIRST cache)) with
      | error e => rfl
      | ok body => simp

/-- When `send_plug_info` returns for every record, `comm_send_pluginlist` sends
the start marker `SERVER <|> PLUGIN_LIST <|>`, then for each record in the order of
the list what `send_plug_info` sends for it, then the end marker `<|> SERVER`; a
fault of `send_plug_info` is a fault of the listing. For an empty or `NULL` list
it sends exactly the two marker lines. -/
theorem comm_send_pluginlist_frame (categories : List CStr) (ACT_FIRST : Int)
    (cache : CStr → Option nvti) (plugins : List arglist) :
    comm_send_pluginlist categories ACT_FIRST cache (some plugins)
      = (match concat_outputs (plugins.map (send_plug_info categories ACT_FIRST cache)) with
          | .error e => .error e
          | .ok body =>
            .ok (cstr "SERVER <|> PLUGIN_LIST <|>\n" ++ body ++ cstr "<|> SERVER\n")) ∧
    comm_send_pluginlist categories ACT_FIRST cache (some [])
      = .ok (cstr "SERVER <|> PLUGIN_LIST <|>\n" ++ cstr "<|> SERVER\n") ∧
    comm_send_pluginlist categories ACT_FIRST cache none
      = .ok (cstr "SERVER <|> PLUGIN_LIST <|>\n" ++ cstr "<|> SERVER\n") := by
  refine ⟨?_, rfl, rfl⟩
  unfold comm_send_pluginlist
  simp only [Option.getD_some]
  rw [comm_send_pluginlist_loop_eq]
  cases concat_outputs (plugins.map (send_plug_info categories ACT_FIRST cache)) with
  | error e => rfl
  | ok body => rfl

/-- C17, the code at the failing input: for a list with a record that has no
copyright, `comm_send_pluginlist` ends in the fault of `send_plug_info` after the
start marker and the end marker is not sent; the record is not skipped. -/
theorem comm_send_pluginlist_fault :
    comm_send_pluginlist sample_categories 0
        (fun _ => some { sample_record with copyright := none })
        (some [⟨cstr "1.2", 0⟩])
      = .error .null_deref ∧
    comm_send_pluginlist sample_categories 0
        (fun _ => some { sample_record with copyright := none })
        (some [⟨cstr "1.2", 0⟩])
      ≠ .ok (cstr "SERVER <|> PLUGIN_LIST <|>\n" ++ cstr "<|> SERVER\n") := by
  decide

theorem comm_send_preferences_loop_eq (ARG_STRING : Int)
    (is_scanner_only_pref : CStr → Int) (prefs : List pref_node) :
    ∀ sent : CStr,
      comm_send_preferences_loop ARG_STRING is_scanner_only_pref prefs sent
        = sent ++ (((prefs.filter
            (fun p => p.type = ARG_STRING ∧ is_scanner_only_pref p.name = 0)).map
            (fun p => p.name ++ cstr " <|> " ++ p.value ++ cstr "\n")).flatten) := by
  induction prefs with
  | nil => intro sent; simp [comm_send_preferences_loop]
  | cons p ps ih =>
    intro sent
    rw [comm_send_preferences_loop]
    by_cases h : p.type = ARG_STRING ∧ is_scanner_only_pref p.name = 0
    · rw [if_pos h, ih, List.filter_cons_of_pos (by simpa using h)]
      simp
    · rw [if_neg h, ih, List.filter_cons_of_neg (by simpa using h)]

/-- C18. For every preference list, `comm_send_preferences` sends
`SERVER <|> PREFERENCES <|>`, then one line `name <|> value` for exactly the
entries whose type is `ARG_STRING` and that are not scanner-only, in the order of
the list, then `<|> SERVER`; no other entry is sent. -/
theorem comm_send_preferences_lines (ARG_STRING : Int)
    (is_scanner_only_pref : CStr → Int) (prefs : List pref_node) :
    comm_send_preferences ARG_STRING is_scanner_only_pref (some prefs)
      = cstr "SERVER <|> PREFERENCES <|>\n"
        ++ (((prefs.filter
            (fun p => p.type = ARG_STRING ∧ is_scanner_only_pref p.name = 0)).map
            (fun p => p.name ++ cstr " <|> " ++ p.value ++ cstr "\n")).flatten)
        ++ cstr "<|> SERVER\n" ∧
    comm_send_preferences ARG_STRING is_scanner_only_pref none
      = cstr "SERVER <|> PREFERENCES <|>\n" ++ cstr "<|> SERVER\n" := by
  refine ⟨?_, rfl⟩
  unfold comm_send_preferences
  simp only [Option.getD_some]
  rw [comm_send_preferences_loop_eq]

/-! ## The all-enable test and the recursion of the lookup -/

/-- C20. On every array, sorted or not, and for every query, the recursion
`_get_plug_by_oid (array, q, 0, n, n)` with `n` the number of records returns
within `n + 1` steps (any larger bound gives the same result), reads the array
inside its bounds only (no fault), and a record it returns is a record of the
array whose OID equals the query. -/
theorem get_plug_by_oid_returns {α : Type} (name : α → CStr) (array : List α)
    (q : CStr) :
    ∃ res, get_plug_by_oid name array q array.length = .ok res ∧
      (∀ fuel, array.length < fuel →
        _get_plug_by_oid name array q fuel 0 array.length array.length = .ok res) ∧
      ∀ p, res = some p → p ∈ array ∧ name p = q := by
  obtain ⟨res, h1, h2, h3⟩ := get_plug_any name array q (array.length + 1) 0 array.length
    (Nat.zero_le _) (Nat.le_refl _) (by omega)
  exact ⟨res, h1, fun fuel hf => h2 fuel (by omega), h3⟩

/-- C20, witness: an array that is not sorted; the query is found at the middle. -/
theorem get_plug_by_oid_returns_witness :
    ∃ res, get_plug_by_oid arglist.name
        [⟨cstr "1.3", 0⟩, ⟨cstr "1.1", 0⟩, ⟨cstr "1.2", 0⟩] (cstr "1.1") 3 = .ok res ∧
      (∀ fuel, 3 < fuel →
        _get_plug_by_oid arglist.name
          [⟨cstr "1.3", 0⟩, ⟨cstr "1.1", 0⟩, ⟨cstr "1.2", 0⟩] (cstr "1.1") fuel 0 3 3
          = .ok res) ∧
      ∀ p, res = some p →
        p ∈ [(⟨cstr "1.3", 0⟩ : arglist), ⟨cstr "1.1", 0⟩, ⟨cstr "1.2", 0⟩] ∧
          p.name = cstr "1.1" :=
  get_plug_by_oid_returns arglist.name
    [⟨cstr "1.3", 0⟩, ⟨cstr "1.1", 0⟩, ⟨cstr "1.2", 0⟩] (cstr "1.1")

end Comm
